import Mathlib

/-!
Verification development for the nba-quiz-generator repository.

The development shallowly embeds the parts of the code that the checked
properties are about:

* `src/app/components/Quiz.tsx` — answer sorting, input normalization,
  answer matching, team formatting and the quiz completion state machine;
* `src/app/api/generate-quiz/route.ts` — the POST dispatch, the yearly
  leaders quiz builder (with its placeholder fallback), the curated
  datasets, and the JSON preprocessing / repair chain.

JavaScript strings are modelled as Lean `String` / `List Char`.  The
JavaScript built-ins used by the code (`toLowerCase`, `normalize('NFKD')`,
`trim`, the regexes) are modelled character by character; the Unicode
tables are restricted to the ASCII and Latin-1 ranges that player names
and quiz topics use, with every character outside the modelled table
mapped to itself.  Asynchronous network calls cannot be embedded, so a
fetch result is passed in as an explicit `Option (List Answer)` argument
(`none` models the catch-all failure path that returns `null`).
-/

/-! ## JavaScript character primitives -/

/-- The character class of the JavaScript regex `\s` (also the set that
`String.prototype.trim` removes). -/
def jsSpace (c : Char) : Bool :=
  c.toNat = 0x20 || c.toNat = 0x09 || c.toNat = 0x0a || c.toNat = 0x0d ||
  c.toNat = 0x0b || c.toNat = 0x0c || c.toNat = 0xa0 ||
  c.toNat = 0x1680 || (0x2000 ≤ c.toNat && c.toNat ≤ 0x200a) ||
  c.toNat = 0x2028 || c.toNat = 0x2029 || c.toNat = 0x202f ||
  c.toNat = 0x205f || c.toNat = 0x3000 || c.toNat = 0xfeff

/-- `String.prototype.toLowerCase`, restricted to the ASCII and Latin-1
letters; every other character is left unchanged. -/
def jsLower (c : Char) : Char :=
  if 0x41 ≤ c.toNat ∧ c.toNat ≤ 0x5a then Char.ofNat (c.toNat + 32)
  else if 0xc0 ≤ c.toNat ∧ c.toNat ≤ 0xde ∧ c.toNat ≠ 0xd7 then Char.ofNat (c.toNat + 32)
  else c

/-- NFKD decompositions for the Latin-1 accented lowercase letters, `ć`
(for "Jokić"), and the Unicode compatibility space characters.
(`æ ø ß ð þ` have no decomposition and are intentionally absent.) -/
def nfkdTable : List (Char × List Char) :=
  [ (Char.ofNat 0xe0, ['a', Char.ofNat 0x300]),
    (Char.ofNat 0xe1, ['a', Char.ofNat 0x301]),
    (Char.ofNat 0xe2, ['a', Char.ofNat 0x302]),
    (Char.ofNat 0xe3, ['a', Char.ofNat 0x303]),
    (Char.ofNat 0xe4, ['a', Char.ofNat 0x308]),
    (Char.ofNat 0xe5, ['a', Char.ofNat 0x30a]),
    (Char.ofNat 0xe7, ['c', Char.ofNat 0x327]),
    (Char.ofNat 0xe8, ['e', Char.ofNat 0x300]),
    (Char.ofNat 0xe9, ['e', Char.ofNat 0x301]),
    (Char.ofNat 0xea, ['e', Char.ofNat 0x302]),
    (Char.ofNat 0xeb, ['e', Char.ofNat 0x308]),
    (Char.ofNat 0xec, ['i', Char.ofNat 0x300]),
    (Char.ofNat 0xed, ['i', Char.ofNat 0x301]),
    (Char.ofNat 0xee, ['i', Char.ofNat 0x302]),
    (Char.ofNat 0xef, ['i', Char.ofNat 0x308]),
    (Char.ofNat 0xf1, ['n', Char.ofNat 0x303]),
    (Char.ofNat 0xf2, ['o', Char.ofNat 0x300]),
    (Char.ofNat 0xf3, ['o', Char.ofNat 0x301]),
    (Char.ofNat 0xf4, ['o', Char.ofNat 0x302]),
    (Char.ofNat 0xf5, ['o', Char.ofNat 0x303]),
    (Char.ofNat 0xf6, ['o', Char.ofNat 0x308]),
    (Char.ofNat 0xf9, ['u', Char.ofNat 0x300]),
    (Char.ofNat 0xfa, ['u', Char.ofNat 0x301]),
    (Char.ofNat 0xfb, ['u', Char.ofNat 0x302]),
    (Char.ofNat 0xfc, ['u', Char.ofNat 0x308]),
    (Char.ofNat 0xfd, ['y', Char.ofNat 0x301]),
    (Char.ofNat 0xff, ['y', Char.ofNat 0x308]),
    (Char.ofNat 0x107, ['c', Char.ofNat 0x301]),
    (Char.ofNat 0xa0, [' ']),
    (Char.ofNat 0x2000, [' ']), (Char.ofNat 0x2001, [' ']),
    (Char.ofNat 0x2002, [' ']), (Char.ofNat 0x2003, [' ']),
    (Char.ofNat 0x2004, [' ']), (Char.ofNat 0x2005, [' ']),
    (Char.ofNat 0x2006, [' ']), (Char.ofNat 0x2007, [' ']),
    (Char.ofNat 0x2008, [' ']), (Char.ofNat 0x2009, [' ']),
    (Char.ofNat 0x200a, [' ']), (Char.ofNat 0x202f, [' ']),
    (Char.ofNat 0x205f, [' ']), (Char.ofNat 0x3000, [' ']) ]

/-- `String.prototype.normalize('NFKD')`, one character at a time. -/
def jsNFKD (c : Char) : List Char :=
  match nfkdTable.lookup c with
  | some l => l
  | none => [c]

/-- A combining diacritical mark: the class `[̀-ͯ]` (U+0300–U+036F). -/
def isMark (c : Char) : Bool :=
  0x300 ≤ c.toNat && c.toNat ≤ 0x36f

/-- The character class of the JavaScript regex `\w` (`[A-Za-z0-9_]`). -/
def isWordChar (c : Char) : Bool :=
  (0x61 ≤ c.toNat && c.toNat ≤ 0x7a) || (0x41 ≤ c.toNat && c.toNat ≤ 0x5a) ||
  (0x30 ≤ c.toNat && c.toNat ≤ 0x39) || c.toNat = 0x5f

/-- What survives the punctuation-stripping replace of `[^\w\s]`. -/
def keepChar (c : Char) : Bool := isWordChar c || jsSpace c

/-- `String.prototype.trim` on a character list. -/
def jsTrimL (l : List Char) : List Char :=
  ((l.dropWhile jsSpace).reverse.dropWhile jsSpace).reverse

/-- `String.prototype.trim`. -/
def jsTrim (s : String) : String := ⟨jsTrimL s.data⟩

/-- The normalization pipeline of `normalizeText` in `Quiz.tsx` (without
the leading falsy guard): lowercase, NFKD-decompose, strip combining
marks, strip `[^\w\s]`, trim. -/
def normL (l : List Char) : List Char :=
  jsTrimL ((((l.map jsLower).flatMap jsNFKD).filter (fun c => !isMark c)).filter keepChar)

/-- `normalizeText` from `Quiz.tsx`.  `none` models a `null`/`undefined`
argument; the falsy guard `if (!text) return ''` also catches the empty
string. -/
def normalizeText : Option String → String
  | none => ""
  | some s => if s = "" then "" else ⟨normL s.data⟩

/-! ### Facts about the normalization pipeline -/

theorem toNat_Char_ofNat_lt (n : Nat) (h1 : n < 55296) : (Char.ofNat n).toNat = n := by
  have hv : n.isValidChar := Or.inl h1
  rw [Char.ofNat, dif_pos hv]
  rfl

theorem dropWhile_head_not {p : Char → Bool} :
    ∀ (l : List Char) (a : Char), (l.dropWhile p).head? = some a → p a = false := by
  intro l
  induction l with
  | nil => intro a h; simp [List.dropWhile] at h
  | cons c cs ih =>
    intro a h
    by_cases hp : p c
    · rw [List.dropWhile_cons_of_pos hp] at h; exact ih a h
    · rw [List.dropWhile_cons_of_neg hp] at h
      simp at h
      subst h
      simpa using hp

theorem dropWhile_eq_self_of_head {p : Char → Bool} (l : List Char)
    (h : ∀ a, l.head? = some a → p a = false) : l.dropWhile p = l := by
  cases l with
  | nil => simp
  | cons c cs =>
    have := h c rfl
    simp [List.dropWhile, this]

theorem jsTrimL_idem (l : List Char) : jsTrimL (jsTrimL l) = jsTrimL l := by
  have h2 : ((l.dropWhile jsSpace).reverse.dropWhile jsSpace).dropWhile jsSpace
      = (l.dropWhile jsSpace).reverse.dropWhile jsSpace :=
    dropWhile_eq_self_of_head _ (fun a ha => dropWhile_head_not _ a ha)
  have hpre : ((l.dropWhile jsSpace).reverse.dropWhile jsSpace).reverse.dropWhile jsSpace
      = ((l.dropWhile jsSpace).reverse.dropWhile jsSpace).reverse := by
    apply dropWhile_eq_self_of_head
    intro a ha
    obtain ⟨t, ht⟩ :=
      List.dropWhile_suffix (l := (l.dropWhile jsSpace).reverse) (p := jsSpace)
    have hu : ((l.dropWhile jsSpace).reverse.dropWhile jsSpace).reverse ++ t.reverse
        = l.dropWhile jsSpace := by
      have := congrArg List.reverse ht
      simpa using this
    apply dropWhile_head_not l a
    rw [← hu, List.head?_append, ha]
    rfl
  unfold jsTrimL
  rw [hpre]
  simp only [List.reverse_reverse]
  rw [h2]

/-- A character that every stage of the pipeline leaves alone: an ASCII
lowercase letter, digit or underscore, or a whitespace character with no
compatibility decomposition. -/
def tameChar (c : Char) : Bool :=
  ((0x61 ≤ c.toNat && c.toNat ≤ 0x7a) || (0x30 ≤ c.toNat && c.toNat ≤ 0x39) ||
    c.toNat = 0x5f) ||
  (jsSpace c && (nfkdTable.lookup c).isNone)

theorem lookup_some_mem {α β : Type} [BEq α] [LawfulBEq α] :
    ∀ (t : List (α × β)) (a : α) (v : β), t.lookup a = some v → (a, v) ∈ t := by
  intro t
  induction t with
  | nil => intro a v h; simp [List.lookup] at h
  | cons p ps ih =>
    intro a v h
    obtain ⟨k, w⟩ := p
    rw [List.lookup] at h
    by_cases he : (a == k) = true
    · simp only [he, if_pos] at h
      have ha : a = k := eq_of_beq he
      subst ha
      injection h with h
      subst h
      exact List.mem_cons_self _ _
    · simp only [Bool.not_eq_true] at he
      rw [he] at h
      simp only [Bool.false_eq_true, if_false] at h
      exact List.mem_cons_of_mem _ (ih a v h)

theorem jsLower_not_upper (c : Char) :
    ¬(0x41 ≤ (jsLower c).toNat ∧ (jsLower c).toNat ≤ 0x5a) := by
  unfold jsLower
  by_cases h1 : 0x41 ≤ c.toNat ∧ c.toNat ≤ 0x5a
  · rw [if_pos h1, toNat_Char_ofNat_lt _ (by omega)]
    omega
  · rw [if_neg h1]
    by_cases h2 : 0xc0 ≤ c.toNat ∧ c.toNat ≤ 0xde ∧ c.toNat ≠ 0xd7
    · rw [if_pos h2, toNat_Char_ofNat_lt _ (by omega)]
      omega
    · rw [if_neg h2]
      omega

theorem nfkdTable_values_ok :
    ∀ p ∈ nfkdTable, ∀ c ∈ p.2,
      ((0x61 ≤ c.toNat && c.toNat ≤ 0x7a) || isMark c || c.toNat = 0x20) = true := by decide

theorem nfkdTable_keys_large : ∀ p ∈ nfkdTable, 0xa0 ≤ p.1.toNat := by decide

theorem tame_of_kept {a c : Char} (hmem : c ∈ jsNFKD (jsLower a))
    (hkeep : keepChar c = true) (hnm : isMark c = false) : tameChar c = true := by
  unfold jsNFKD at hmem
  cases hlk : nfkdTable.lookup (jsLower a) with
  | none =>
    rw [hlk] at hmem
    simp only [List.mem_singleton] at hmem
    subst hmem
    unfold keepChar at hkeep
    simp only [Bool.or_eq_true] at hkeep
    rcases hkeep with hw | hs
    · unfold isWordChar at hw
      unfold tameChar
      simp only [Bool.or_eq_true, Bool.and_eq_true, decide_eq_true_eq] at hw ⊢
      have := jsLower_not_upper a
      exact Or.inl (by omega)
    · unfold tameChar
      simp only [Bool.or_eq_true, Bool.and_eq_true]
      exact Or.inr ⟨hs, by rw [hlk]; rfl⟩
  | some v =>
    rw [hlk] at hmem
    have hpmem := lookup_some_mem _ _ _ hlk
    have hok := nfkdTable_values_ok _ hpmem c hmem
    simp only [Bool.or_eq_true] at hok
    rcases hok with (h | h) | h
    · unfold tameChar
      simp only [Bool.or_eq_true, Bool.and_eq_true, decide_eq_true_eq] at h ⊢
      exact Or.inl (Or.inl (Or.inl h))
    · rw [h] at hnm
      simp at hnm
    · -- the decomposition produced a plain space
      have hsp : c.toNat = 0x20 := by simpa using h
      unfold tameChar
      simp only [Bool.or_eq_true, Bool.and_eq_true, decide_eq_true_eq]
      refine Or.inr ⟨?_, ?_⟩
      · unfold jsSpace
        simp only [Bool.or_eq_true, Bool.and_eq_true, decide_eq_true_eq]
        omega
      · simp only [Option.isNone_iff_eq_none]
        cases hlk2 : nfkdTable.lookup c with
        | none => rfl
        | some w =>
          exfalso
          have := nfkdTable_keys_large _ (lookup_some_mem _ _ _ hlk2)
          simp only at this
          omega

theorem mem_jsTrimL {c : Char} {x : List Char} (h : c ∈ jsTrimL x) : c ∈ x := by
  unfold jsTrimL at h
  rw [List.mem_reverse] at h
  have h2 := List.IsSuffix.mem h (List.dropWhile_suffix jsSpace)
  rw [List.mem_reverse] at h2
  exact List.IsSuffix.mem h2 (List.dropWhile_suffix jsSpace)

theorem mem_normL_tame {c : Char} {l : List Char} (h : c ∈ normL l) : tameChar c = true := by
  unfold normL at h
  have h2 := mem_jsTrimL h
  rw [List.mem_filter] at h2
  obtain ⟨h3, hkeep⟩ := h2
  rw [List.mem_filter] at h3
  obtain ⟨h4, hnm⟩ := h3
  rw [List.mem_flatMap] at h4
  obtain ⟨b, hb, hcb⟩ := h4
  rw [List.mem_map] at hb
  obtain ⟨a, _, hba⟩ := hb
  subst hba
  exact tame_of_kept hcb hkeep (by simpa using hnm)

theorem map_eq_self_of {α : Type} (f : α → α) (l : List α) (h : ∀ c ∈ l, f c = c) :
    l.map f = l := by
  induction l with
  | nil => rfl
  | cons c cs ih =>
    simp only [List.map_cons, h c (List.mem_cons_self c cs)]
    rw [ih (fun x hx => h x (List.mem_cons_of_mem c hx))]

theorem flatMap_eq_self_of {α : Type} (f : α → List α) (l : List α)
    (h : ∀ c ∈ l, f c = [c]) : l.flatMap f = l := by
  induction l with
  | nil => rfl
  | cons c cs ih =>
    rw [List.flatMap_cons, h c (List.mem_cons_self c cs),
      ih (fun x hx => h x (List.mem_cons_of_mem c hx))]
    rfl

theorem jsSpace_toNat {c : Char} (h : jsSpace c = true) :
    c.toNat = 0x20 ∨ c.toNat = 0x09 ∨ c.toNat = 0x0a ∨ c.toNat = 0x0d ∨
    c.toNat = 0x0b ∨ c.toNat = 0x0c ∨ c.toNat = 0xa0 ∨
    c.toNat = 0x1680 ∨ (0x2000 ≤ c.toNat ∧ c.toNat ≤ 0x200a) ∨
    c.toNat = 0x2028 ∨ c.toNat = 0x2029 ∨ c.toNat = 0x202f ∨
    c.toNat = 0x205f ∨ c.toNat = 0x3000 ∨ c.toNat = 0xfeff := by
  unfold jsSpace at h
  simp only [Bool.or_eq_true, Bool.and_eq_true, decide_eq_true_eq] at h
  omega

theorem tame_jsLower {c : Char} (h : tameChar c = true) : jsLower c = c := by
  unfold tameChar at h
  simp only [Bool.or_eq_true, Bool.and_eq_true, decide_eq_true_eq] at h
  have hn : ¬(0x41 ≤ c.toNat ∧ c.toNat ≤ 0x5a) ∧
      ¬(0xc0 ≤ c.toNat ∧ c.toNat ≤ 0xde ∧ c.toNat ≠ 0xd7) := by
    rcases h with hw | ⟨hs, _⟩
    · omega
    · have := jsSpace_toNat hs
      omega
  unfold jsLower
  rw [if_neg hn.1, if_neg hn.2]

theorem tame_jsNFKD {c : Char} (h : tameChar c = true) : jsNFKD c = [c] := by
  unfold tameChar at h
  simp only [Bool.or_eq_true, Bool.and_eq_true, decide_eq_true_eq] at h
  unfold jsNFKD
  cases hlk : nfkdTable.lookup c with
  | none => rfl
  | some v =>
    exfalso
    have hbig := nfkdTable_keys_large _ (lookup_some_mem _ _ _ hlk)
    simp only at hbig
    rcases h with hw | ⟨_, hnone⟩
    · omega
    · rw [hlk] at hnone
      simp at hnone

theorem tame_not_mark {c : Char} (h : tameChar c = true) : isMark c = false := by
  unfold tameChar at h
  simp only [Bool.or_eq_true, Bool.and_eq_true, decide_eq_true_eq] at h
  unfold isMark
  simp only [Bool.and_eq_false_iff, decide_eq_false_iff_not]
  rcases h with hw | ⟨hs, _⟩
  · omega
  · have := jsSpace_toNat hs
    omega

theorem tame_keep {c : Char} (h : tameChar c = true) : keepChar c = true := by
  unfold tameChar at h
  simp only [Bool.or_eq_true, Bool.and_eq_true, decide_eq_true_eq] at h
  unfold keepChar isWordChar
  simp only [Bool.or_eq_true, Bool.and_eq_true, decide_eq_true_eq]
  rcases h with hw | ⟨hs, _⟩
  · exact Or.inl (by omega)
  · exact Or.inr hs

theorem normL_of_tame (l : List Char) (h : ∀ c ∈ l, tameChar c = true) :
    normL l = jsTrimL l := by
  unfold normL
  rw [map_eq_self_of jsLower l (fun c hc => tame_jsLower (h c hc)),
    flatMap_eq_self_of jsNFKD l (fun c hc => tame_jsNFKD (h c hc))]
  have h1 : l.filter (fun c => !isMark c) = l :=
    List.filter_eq_self.mpr (fun c hc => by simp [tame_not_mark (h c hc)])
  rw [h1]
  have h2 : l.filter keepChar = l :=
    List.filter_eq_self.mpr (fun c hc => tame_keep (h c hc))
  rw [h2]

theorem normL_idem (l : List Char) : normL (normL l) = normL l := by
  rw [normL_of_tame (normL l) (fun c hc => mem_normL_tame hc)]
  have : normL l = jsTrimL ((((l.map jsLower).flatMap jsNFKD).filter
      (fun c => !isMark c)).filter keepChar) := rfl
  rw [this, jsTrimL_idem]

/-! ## Splitting (JavaScript `String.prototype.split` with a one-character
separator, as in `fullName.split(' ')` and `team.split('-')`) -/

def splitCh (sep : Char) : List Char → List (List Char)
  | [] => [[]]
  | c :: cs =>
    match splitCh sep cs with
    | [] => [[]]
    | w :: ws => if c = sep then [] :: w :: ws else (c :: w) :: ws

def joinTail (sep : Char) : List (List Char) → List Char
  | [] => []
  | w :: ws => sep :: (w ++ joinTail sep ws)

def joinCh (sep : Char) : List (List Char) → List Char
  | [] => []
  | w :: ws => w ++ joinTail sep ws

theorem splitCh_ne_nil (sep : Char) (l : List Char) : splitCh sep l ≠ [] := by
  cases l with
  | nil => simp [splitCh]
  | cons c cs =>
    rw [splitCh]
    cases splitCh sep cs with
    | nil => simp
    | cons w ws =>
      by_cases h : c = sep <;> simp [h]

theorem joinCh_splitCh (sep : Char) (l : List Char) : joinCh sep (splitCh sep l) = l := by
  induction l with
  | nil => rfl
  | cons c cs ih =>
    cases hs : splitCh sep cs with
    | nil => exact absurd hs (splitCh_ne_nil sep cs)
    | cons w ws =>
      rw [hs, joinCh] at ih
      simp only [splitCh, hs]
      by_cases h : c = sep
      · subst h
        simp [joinCh, joinTail, ih]
      · simp [h, joinCh, ih]

/-- `fullName.split(' ').filter(part => part.trim().length > 0)` from
`checkAnswer` / `isUniqueFirstName` in `Quiz.tsx`. -/
def nameParts (p : List Char) : List (List Char) :=
  (splitCh ' ' p).filter (fun w => !(jsTrimL w).isEmpty)

/-- `nameParts.length > 0 ? nameParts[0] : ''` -/
def firstNameOf (p : List Char) : List Char := (nameParts p).headD []

/-- `nameParts.length > 1 ? nameParts[nameParts.length - 1] : ''` -/
def lastNameOf (p : List Char) : List Char :=
  if (nameParts p).length > 1 then (nameParts p).getLastD [] else []

/-! ## Data model -/

/-- One answer record, as consumed by the `Quiz` component
(`{ points, player, team, year }`).  The TypeScript interface declares all
fields as present, but the component code defensively guards against
missing (`undefined`) ones, so the string fields are embedded as
`Option String`. -/
structure Answer where
  points : Int
  player : Option String
  team : Option String
  year : Option String
deriving DecidableEq, Repr, Inhabited

/-- JavaScript truthiness of an optional string field
(`undefined`, `null` and `''` are falsy). -/
def strTruthy : Option String → Bool
  | none => false
  | some s => !(s == "")

def playerStr (r : Answer) : String := r.player.getD ""

/-- A quiz payload as returned to the page by the API route:
`{ answers, timeLimit, title, description }`. -/
structure QuizPayload where
  answers : List Answer
  timeLimit : Nat
  title : String
  description : String
deriving DecidableEq, Repr

/-! ## Quiz.tsx: sorting the answers -/

def isDigitChar (c : Char) : Bool := 0x30 ≤ c.toNat && c.toNat ≤ 0x39

def digitsToNat (l : List Char) : Nat :=
  l.foldl (fun a c => a * 10 + (c.toNat - 0x30)) 0

/-- JavaScript `parseInt` in base 10: skip leading whitespace, optional
sign, then a maximal run of digits; `none` models `NaN`. -/
def jsParseInt (s : String) : Option Int :=
  let l := s.data.dropWhile jsSpace
  match l with
  | '-' :: rest =>
    let ds := rest.takeWhile isDigitChar
    if ds.isEmpty then none else some (-(digitsToNat ds : Int))
  | '+' :: rest =>
    let ds := rest.takeWhile isDigitChar
    if ds.isEmpty then none else some (digitsToNat ds : Int)
  | _ =>
    let ds := l.takeWhile isDigitChar
    if ds.isEmpty then none else some (digitsToNat ds : Int)

/-- The sort key `a.year ? parseInt(a.year) : 0` of the comparator in
`sortedAnswers`; `none` models `NaN` (a non-numeric year string). -/
def yearKeyNum (r : Answer) : Option Int :=
  match r.year with
  | none => some 0
  | some s => if s = "" then some 0 else jsParseInt s

def yearKey (r : Answer) : Int := (yearKeyNum r).getD 0

/-- `[...answers].sort((a, b) => yearB - yearA)` from `Quiz.tsx`:
a stable sort by descending year key (ECMAScript `Array.prototype.sort`
is specified to be stable).  The comparator `yearB - yearA ≤ 0`, i.e.
"keep `a` before `b`", is `yearKey b ≤ yearKey a`.  For records whose
year is present but not numeric the JavaScript comparator returns `NaN`
and the sort order is implementation-defined; the theorems about this
definition therefore assume every year key is a number. -/
def sortedAnswers (answers : List Answer) : List Answer :=
  answers.mergeSort (fun a b => decide (yearKey b ≤ yearKey a))

/-! ## Quiz.tsx: the matching engine -/

/-- `isUniqueFirstName(firstName, currentIndex)` from `Quiz.tsx`: counts
the other records (over the whole sorted answer list, matched or not)
whose first name token normalizes to the same string; `0` means unique. -/
def isUniqueFirstName (answers : List Answer) (firstName : List Char)
    (currentIndex : Nat) : Bool :=
  if firstName.isEmpty then false
  else
    ((List.range answers.length).countP (fun i =>
      (!(i == currentIndex)) &&
      strTruthy (answers.getD i default).player &&
      (normL (firstNameOf (playerStr (answers.getD i default)).data) == normL firstName)))
      == 0

/-- The match condition of `checkAnswer` for the record at index `i`:
full-name match, last-name match, or unique-first-name match.  The
`normalizeText` applications are unfolded to `normL` (for a truthy
name they agree, and `normalizeText '' = '' = normL []`). -/
def matchRule (answers : List Answer) (i : Nat) (normalizedInput : List Char) : Bool :=
  (normL (playerStr (answers.getD i default)).data == normalizedInput) ||
  ((!(lastNameOf (playerStr (answers.getD i default)).data).isEmpty) &&
    (normL (lastNameOf (playerStr (answers.getD i default)).data) == normalizedInput)) ||
  ((!(firstNameOf (playerStr (answers.getD i default)).data).isEmpty) &&
    (normL (firstNameOf (playerStr (answers.getD i default)).data) == normalizedInput) &&
    isUniqueFirstName answers (firstNameOf (playerStr (answers.getD i default)).data) i)

/-- The `foundIndices` set collected by the first pass of `checkAnswer`:
all not-yet-found indices with a truthy player name whose name matches
the normalized input. -/
def matchedIndices (answers : List Answer) (found : Finset ℕ) (value : String) : Finset ℕ :=
  (Finset.range answers.length).filter (fun i =>
    i ∉ found ∧ strTruthy (answers.getD i default).player = true ∧
    matchRule answers i (normL value.data) = true)

/-- `checkAnswer` from `Quiz.tsx`, restricted to its effect on the
`foundAnswers` state: an input that trims to `''` returns immediately;
otherwise all matched indices are added in one update (`foundNew` false
means no state update). -/
def checkAnswer (answers : List Answer) (found : Finset ℕ) (value : String) : Finset ℕ :=
  if jsTrim value = "" then found
  else
    let idxs := matchedIndices answers found value
    if idxs = ∅ then found else found ∪ idxs

/-! ## Quiz.tsx: team display formatting -/

def strContains (s pat : String) : Bool := decide (pat.data <:+: s.data)

/-- `formatTeam` from `Quiz.tsx`. -/
def formatTeam : Option String → String
  | none => ""
  | some t =>
    if t = "" then ""
    else if strContains t "-N/A" || strContains t "-undefined" then
      let parts := splitCh '-' t.data
      let year := parts.headD []
      if year.isEmpty then "" else (⟨year⟩ : String) ++ "-NBA"
    else t

/-! ## Quiz.tsx: the session state machine

The component state `{ foundAnswers, input, timeLeft, isComplete }` with
the three event sources: an Enter keypress in the answer input, a timer
tick, and the Give Up button.  The answer input and the Give Up button
are only rendered while `!isComplete`, and the timer effect re-arms only
while `!isComplete`, so no event has any effect once `isComplete` is set
— this render guard is modelled by the leading `if s.isComplete`.  The
second component of the result is the score passed to the `onComplete`
callback, `none` when the event does not complete the quiz. -/

structure QuizState where
  found : Finset ℕ
  input : String
  timeLeft : Nat
  isComplete : Bool
deriving DecidableEq

inductive QuizEvent
  | submit (value : String)
  | tick
  | giveUp

/-- One event step of the `Quiz` component.  On the full-coverage path,
`handleComplete` is invoked synchronously after `setFoundAnswers`, so the
`foundAnswers.size` it reports still reads the render closure's
pre-update set: the emitted score is `s.found.card`, not
`newFound.card`. -/
def quizStep (answers : List Answer) (s : QuizState) (e : QuizEvent) :
    QuizState × Option Nat :=
  if s.isComplete then (s, none)
  else
    match e with
    | .submit value =>
      if jsTrim value = "" then (s, none)
      else
        let idxs := matchedIndices answers s.found value
        if idxs = ∅ then (s, none)
        else
          let newFound := s.found ∪ idxs
          if newFound.card = answers.length then
            ({ s with found := newFound, input := "", isComplete := true },
              some s.found.card)
          else
            ({ s with found := newFound, input := "" }, none)
    | .tick =>
      let t := s.timeLeft - 1
      if t = 0 then ({ s with timeLeft := 0, isComplete := true }, some s.found.card)
      else ({ s with timeLeft := t }, none)
    | .giveUp => ({ s with isComplete := true }, some s.found.card)

/-! ## route.ts: the yearly leaders quiz builder

`fetchYearlyPointsLeaders` performs network requests, so its result is
passed in as `fetchResult : Option (List Answer)`: `some a` models the
accumulated `answers` array (possibly empty), `none` models the `catch`
branch that returns `null`.  `fetchRequestYears` embeds the loop bounds
of its per-season request loop (`for (year = startYear;
year <= actualEndYear; year++)` with
`actualEndYear = Math.min(endYear, currentYear)`). -/

def yearsRange (startYear endYear currentYear : Nat) : List Nat :=
  let actualEndYear := min endYear currentYear
  List.range' startYear (actualEndYear + 1 - startYear)

/-- The season years for which `fetchYearlyPointsLeaders` issues one
request each (one request per loop iteration, 10s timeout, 500ms delay). -/
def fetchRequestYears (startYear endYear currentYear : Nat) : List Nat :=
  yearsRange startYear endYear currentYear

def toLowerStr (s : String) : String := ⟨s.data.map jsLower⟩

/-- `category.toLowerCase().includes('points') ||
category.toLowerCase().includes('ppg')` from `generateYearlyLeadersQuiz`. -/
def categoryIncludesPoints (category : String) : Bool :=
  strContains (toLowerStr category) "points" || strContains (toLowerStr category) "ppg"

/-- The intermediate `items` element of the placeholder branch of
`generateYearlyLeadersQuiz`. -/
structure YearlyItem where
  player : String
  description : String
  year : Nat
  points : Int
deriving DecidableEq, Repr

/-- The `items` array built by the placeholder branch ("fall back to
AI-generated placeholder data"): for each year of the clamped range and
each `i < limit` one synthesized record. -/
def placeholderItems (startYear endYear currentYear : Nat) (category : String)
    (limit : Nat) : List YearlyItem :=
  (yearsRange startYear endYear currentYear).flatMap fun year =>
    (List.range limit).map fun i =>
      { player := "Player " ++ toString (i + 1) ++ " in " ++ category ++ " for " ++
          toString year
      , description := "Led the league in " ++ category ++ " for the " ++
          toString (year - 1) ++ "-" ++ toString year ++ " season"
      , year := year
      , points := 0 }

/-- The placeholder `answers` (`items.map(...)` with the `-NBA` team
code). -/
def placeholderAnswers (startYear endYear currentYear : Nat) (category : String)
    (limit : Nat) : List Answer :=
  (placeholderItems startYear endYear currentYear category limit).map fun item =>
    { points := item.points
    , player := some item.player
    , team := some (toString item.year ++ "-NBA")
    , year := some (toString item.year) }

/-- `generateYearlyLeadersQuiz` from `route.ts`.  The fetch is attempted
only when the category mentions points/ppg; a `null` fetch result (and
any non-points category) falls into the placeholder branch.  An empty
fetched array is truthy in JavaScript and is returned as-is. -/
def generateYearlyLeadersQuiz (fetchResult : Option (List Answer)) (topic : String)
    (startYear endYear currentYear : Nat) (category : String) (limit : Nat) :
    QuizPayload :=
  let fetched : Option (List Answer) :=
    if categoryIncludesPoints category then fetchResult else none
  let answers :=
    match fetched with
    | some a => a
    | none => placeholderAnswers startYear endYear currentYear category limit
  { answers := answers
  , timeLimit := 1200
  , title := topic
  , description := "Top " ++ toString limit ++ " leaders in " ++ category ++
      " each year from " ++ toString startYear ++ " to " ++ toString endYear }

/-! ## route.ts: the curated datasets -/

/-- `generateThreePointersQuiz(threshold)` from `route.ts`. -/
def generateThreePointersQuiz (threshold : Nat) : QuizPayload :=
  { title := "NBA Players with " ++ toString threshold ++ "+ Three-Pointers in a Game"
  , description := "Quiz on players who have made " ++ toString threshold ++
      " or more three-pointers in a single NBA game."
  , answers :=
    [ ⟨13, some "Klay Thompson", some "2018-GSW", some "2018"⟩,
      ⟨12, some "Stephen Curry", some "2016-GSW", some "2016"⟩,
      ⟨12, some "Kobe Bryant", some "2003-LAL", some "2003"⟩,
      ⟨12, some "Zach LaVine", some "2019-CHI", some "2019"⟩,
      ⟨12, some "Donyell Marshall", some "2005-TOR", some "2005"⟩,
      ⟨11, some "Stephen Curry", some "2016-GSW", some "2016"⟩,
      ⟨11, some "Stephen Curry", some "2021-GSW", some "2021"⟩,
      ⟨11, some "Klay Thompson", some "2019-GSW", some "2019"⟩,
      ⟨11, some "Damian Lillard", some "2020-POR", some "2020"⟩,
      ⟨11, some "Damian Lillard", some "2023-POR", some "2023"⟩,
      ⟨11, some "Lauri Markkanen", some "2019-CHI", some "2019"⟩,
      ⟨10, some "Stephen Curry", some "2016-GSW", some "2016"⟩,
      ⟨10, some "Stephen Curry", some "2018-GSW", some "2018"⟩,
      ⟨10, some "Stephen Curry", some "2019-GSW", some "2019"⟩,
      ⟨10, some "Stephen Curry", some "2021-GSW", some "2021"⟩,
      ⟨10, some "Stephen Curry", some "2022-GSW", some "2022"⟩,
      ⟨10, some "Klay Thompson", some "2016-GSW", some "2016"⟩,
      ⟨10, some "Klay Thompson", some "2016-GSW", some "2016"⟩,
      ⟨10, some "Klay Thompson", some "2019-GSW", some "2019"⟩,
      ⟨10, some "Damian Lillard", some "2020-POR", some "2020"⟩,
      ⟨10, some "Damian Lillard", some "2023-POR", some "2023"⟩,
      ⟨10, some "Zach LaVine", some "2021-CHI", some "2021"⟩,
      ⟨10, some "J.R. Smith", some "2014-NYK", some "2014"⟩,
      ⟨10, some "Marcus Smart", some "2020-BOS", some "2020"⟩,
      ⟨10, some "Ty Lawson", some "2011-DEN", some "2011"⟩,
      ⟨10, some "J.J. Redick", some "2016-LAC", some "2016"⟩,
      ⟨10, some "Joe Johnson", some "2013-BKN", some "2013"⟩,
      ⟨10, some "Ben Gordon", some "2012-DET", some "2012"⟩,
      ⟨10, some "Dennis Scott", some "1996-ORL", some "1996"⟩ ]
  , timeLimit := 1200 }

/-- `generateBlocksLeadersQuiz()` from `route.ts`. -/
def generateBlocksLeadersQuiz : QuizPayload :=
  { title := "Players Who Have Led the NBA in Blocks for Multiple Seasons"
  , description := "This quiz tests your knowledge of NBA players who have led the league in blocks for multiple seasons."
  , answers :=
    [ ⟨0, some "Mark Eaton", some "1984-UTA", some "1984"⟩,
      ⟨0, some "Mark Eaton", some "1985-UTA", some "1985"⟩,
      ⟨0, some "Mark Eaton", some "1986-UTA", some "1986"⟩,
      ⟨0, some "Mark Eaton", some "1987-UTA", some "1987"⟩,
      ⟨0, some "Hakeem Olajuwon", some "1990-HOU", some "1990"⟩,
      ⟨0, some "Hakeem Olajuwon", some "1991-HOU", some "1991"⟩,
      ⟨0, some "Hakeem Olajuwon", some "1993-HOU", some "1993"⟩,
      ⟨0, some "David Robinson", some "1992-SAS", some "1992"⟩,
      ⟨0, some "Dikembe Mutombo", some "1994-DEN", some "1994"⟩,
      ⟨0, some "Dikembe Mutombo", some "1995-DEN", some "1995"⟩,
      ⟨0, some "Dikembe Mutombo", some "1996-ATL", some "1996"⟩,
      ⟨0, some "Dikembe Mutombo", some "1997-ATL", some "1997"⟩,
      ⟨0, some "Theo Ratliff", some "2001-PHI", some "2001"⟩,
      ⟨0, some "Theo Ratliff", some "2003-POR", some "2003"⟩,
      ⟨0, some "Alonzo Mourning", some "1999-MIA", some "1999"⟩,
      ⟨0, some "Alonzo Mourning", some "2000-MIA", some "2000"⟩,
      ⟨0, some "Marcus Camby", some "2007-DEN", some "2007"⟩,
      ⟨0, some "Marcus Camby", some "2008-DEN", some "2008"⟩,
      ⟨0, some "Dwight Howard", some "2009-ORL", some "2009"⟩,
      ⟨0, some "Dwight Howard", some "2010-ORL", some "2010"⟩,
      ⟨0, some "Dwight Howard", some "2011-ORL", some "2011"⟩,
      ⟨0, some "Serge Ibaka", some "2012-OKC", some "2012"⟩,
      ⟨0, some "Serge Ibaka", some "2013-OKC", some "2013"⟩,
      ⟨0, some "Anthony Davis", some "2014-NOP", some "2014"⟩,
      ⟨0, some "Anthony Davis", some "2015-NOP", some "2015"⟩,
      ⟨0, some "Hassan Whiteside", some "2016-MIA", some "2016"⟩,
      ⟨0, some "Rudy Gobert", some "2017-UTA", some "2017"⟩,
      ⟨0, some "Rudy Gobert", some "2019-UTA", some "2019"⟩,
      ⟨0, some "Rudy Gobert", some "2021-UTA", some "2021"⟩,
      ⟨0, some "Myles Turner", some "2019-IND", some "2019"⟩,
      ⟨0, some "Brook Lopez", some "2020-MIL", some "2020"⟩,
      ⟨0, some "Jaren Jackson Jr.", some "2023-MEM", some "2023"⟩ ]
  , timeLimit := 1200 }

/-- `generateTripleDoubleSeasonQuiz()` from `route.ts`. -/
def generateTripleDoubleSeasonQuiz : QuizPayload :=
  { title := "Every Player to Average a Triple-Double for a Season"
  , description := "This quiz tests your knowledge of NBA players who have averaged a triple-double for an entire season."
  , answers :=
    [ ⟨0, some "Oscar Robertson", some "1962-CIN", some "1962"⟩,
      ⟨0, some "Russell Westbrook", some "2017-OKC", some "2017"⟩,
      ⟨0, some "Russell Westbrook", some "2018-OKC", some "2018"⟩,
      ⟨0, some "Russell Westbrook", some "2019-OKC", some "2019"⟩,
      ⟨0, some "Russell Westbrook", some "2021-WAS", some "2021"⟩,
      ⟨0, some "Nikola Jokić", some "2023-DEN", some "2023"⟩ ]
  , timeLimit := 1200 }

/-! ## route.ts: the topic patterns of the POST handler

Each pattern has the shape `/(g1a|g1b|...).*(g2a|g2b|...)/i` and is used
only through `.test(topic)`: the test succeeds iff some alternative of
the first group occurs, followed — with no line terminator in between,
since `.` does not match one — by some alternative of the second group.
Alternatives written with an optional character (`points?`) are expanded
into both spellings. -/

def matchesAt (l pat : List Char) (i : Nat) : Bool := (l.drop i).take pat.length == pat

def containsPatAfter (l : List Char) (alts : List String) : Bool :=
  (List.range (l.length + 1)).any fun j => alts.any fun b => matchesAt l b.data j

/-- What the regex `.` can match (no line terminators). -/
def dotCanMatch (c : Char) : Bool :=
  !(c.toNat = 0x0a || c.toNat = 0x0d || c.toNat = 0x2028 || c.toNat = 0x2029)

def testSeqPattern (alts1 alts2 : List String) (topic : String) : Bool :=
  let l := topic.data.map jsLower
  (List.range (l.length + 1)).any fun i =>
    alts1.any fun a =>
      matchesAt l a.data i &&
      containsPatAfter ((l.drop (i + a.data.length)).takeWhile dotCanMatch) alts2

def leadersAlts : List String := ["leader", "most", "top", "highest"]

/-- `/(points?|scoring|ppg|average).*(leader|most|top|highest)/i` -/
def pointsLeadersTest (topic : String) : Bool :=
  testSeqPattern ["points", "point", "scoring", "ppg", "average"] leadersAlts topic

/-- `/(rebounds?|boards|rpg).*(leader|most|top|highest)/i` -/
def reboundsLeadersTest (topic : String) : Bool :=
  testSeqPattern ["rebounds", "rebound", "boards", "rpg"] leadersAlts topic

/-- `/(assists?|apg).*(leader|most|top|highest)/i` -/
def assistsLeadersTest (topic : String) : Bool :=
  testSeqPattern ["assists", "assist", "apg"] leadersAlts topic

/-- `/(blocks?|block shots?|bpg).*(leader|most|top|highest)/i` -/
def blocksLeadersTest (topic : String) : Bool :=
  testSeqPattern ["blocks", "block", "block shots", "block shot", "bpg"] leadersAlts topic

/-- `/(steals?|spg).*(leader|most|top|highest)/i` -/
def stealsLeadersTest (topic : String) : Bool :=
  testSeqPattern ["steals", "steal", "spg"] leadersAlts topic

/-- `/(three|3pt|3p%|three-point).*(leader|most|top|highest)/i` -/
def threePointersTest (topic : String) : Bool :=
  testSeqPattern ["three", "3pt", "3p%", "three-point"] leadersAlts topic

/-- `/(triple[- ]double|triple-double).*(season|year)/i` -/
def tripleDoubleSeasonTest (topic : String) : Bool :=
  testSeqPattern ["triple-double", "triple double"] ["season", "year"] topic

/-- The stat-category selection chain of the POST handler
(`let statCategory = 'PTS'; if (...) ...`). -/
def statCategoryFor (topic : String) : String :=
  if reboundsLeadersTest topic then "REB"
  else if assistsLeadersTest topic then "AST"
  else if blocksLeadersTest topic then "BLK"
  else if stealsLeadersTest topic then "STL"
  else if threePointersTest topic then "FG3_PCT"
  else "PTS"

/-- `topic.match(/([0-9]{4})/g)`: the non-overlapping four-digit runs,
left to right. -/
def extractYears : List Char → List Nat
  | c1 :: c2 :: c3 :: c4 :: rest =>
    if isDigitChar c1 && isDigitChar c2 && isDigitChar c3 && isDigitChar c4 then
      digitsToNat [c1, c2, c3, c4] :: extractYears rest
    else
      extractYears (c2 :: c3 :: c4 :: rest)
  | _ => []

/-! ## route.ts: the POST dispatch -/

/-- The outcome of the POST handler on a non-empty topic: one of the two
curated hardcoded datasets, the yearly leaders quiz (returned when its
`answers` array is non-empty), or the fall-through to the Anthropic
generative path (`throw new Error('NBA API data insufficient')`). -/
inductive PostResult
  | curatedTripleDouble (q : QuizPayload)
  | curatedBlocks (q : QuizPayload)
  | yearly (q : QuizPayload)
  | anthropicFallback
deriving DecidableEq, Repr

/-- The POST handler of `route.ts` (current version), from year/category
extraction down to the choice of data source.  `currentYear` stands for
`new Date().getFullYear()`; `fetchResult` is threaded through to
`generateYearlyLeadersQuiz` (a handler invocation with limit `20`). -/
def postOutcome (fetchResult : Option (List Answer)) (topic : String)
    (currentYear : Nat) : PostResult :=
  let yearMatches := extractYears topic.data
  let startYear := yearMatches.headD 2010
  let endYear :=
    match yearMatches with
    | [] => currentYear
    | [_] => startYear + 10
    | _ :: y2 :: _ => y2
  let statCategory := statCategoryFor topic
  if tripleDoubleSeasonTest topic then
    .curatedTripleDouble generateTripleDoubleSeasonQuiz
  else if blocksLeadersTest topic && strContains topic "multiple" then
    .curatedBlocks generateBlocksLeadersQuiz
  else
    let q := generateYearlyLeadersQuiz fetchResult topic startYear endYear currentYear
      statCategory 20
    if q.answers.length > 0 then .yearly q else .anthropicFallback

/-! ## route.ts: the JSON preprocessing / repair chain

Each stage of `preprocessJSON` / `repairJSON` is one global regex
replace.  The stages are embedded as character scanners with the same
semantics: find the leftmost match, emit the replacement, resume
scanning right after the matched span; positions with no match emit one
character and move on.  A fuel argument (initialized to more than the
input length; every step consumes at least one character) makes the
scanners structurally terminating. -/

def lbraceC : Char := Char.ofNat 123
def rbraceC : Char := Char.ofNat 125
def backtickC : Char := Char.ofNat 96
def squoteC : Char := Char.ofNat 39

def identChar (c : Char) : Bool := isWordChar c

def letterChar (c : Char) : Bool :=
  (0x41 ≤ c.toNat && c.toNat ≤ 0x5a) || (0x61 ≤ c.toNat && c.toNat ≤ 0x7a)

def alnumChar (c : Char) : Bool := letterChar c || isDigitChar c

def upperChar (c : Char) : Bool := 0x41 ≤ c.toNat && c.toNat ≤ 0x5a

/-- `.replace(/```json|```/g, '')` (the alternation tries the longer
alternative first). -/
def stripBackticksGo : Nat → List Char → List Char
  | 0, l => l
  | _ + 1, [] => []
  | fuel + 1, c :: cs =>
    if (c :: cs).take 7 == [backtickC, backtickC, backtickC, 'j', 's', 'o', 'n'] then
      stripBackticksGo fuel ((c :: cs).drop 7)
    else if (c :: cs).take 3 == [backtickC, backtickC, backtickC] then
      stripBackticksGo fuel ((c :: cs).drop 3)
    else
      c :: stripBackticksGo fuel cs

def stripBackticks (l : List Char) : List Char := stripBackticksGo (l.length + 1) l

/-- `.replace(/,(\s*[\]}])/g, '$1')` — drop a trailing comma, keeping
the whitespace (it is inside the capture group). -/
def fixTrailingCommasKeepWsGo : Nat → List Char → List Char
  | 0, l => l
  | _ + 1, [] => []
  | fuel + 1, c :: cs =>
    if c = ',' then
      let ws := cs.takeWhile jsSpace
      match cs.drop ws.length with
      | b :: rest2 =>
        if b = ']' || b = rbraceC then
          ws ++ b :: fixTrailingCommasKeepWsGo fuel rest2
        else c :: fixTrailingCommasKeepWsGo fuel cs
      | [] => c :: fixTrailingCommasKeepWsGo fuel cs
    else c :: fixTrailingCommasKeepWsGo fuel cs

def fixTrailingCommasKeepWs (l : List Char) : List Char :=
  fixTrailingCommasKeepWsGo (l.length + 1) l

/-- `.replace(/,\s*([}\]])/g, '$1')` — drop a trailing comma and the
whitespace before the bracket (only the bracket is in the group). -/
def fixTrailingCommasDropWsGo : Nat → List Char → List Char
  | 0, l => l
  | _ + 1, [] => []
  | fuel + 1, c :: cs =>
    if c = ',' then
      let ws := cs.takeWhile jsSpace
      match cs.drop ws.length with
      | b :: rest2 =>
        if b = rbraceC || b = ']' then
          b :: fixTrailingCommasDropWsGo fuel rest2
        else c :: fixTrailingCommasDropWsGo fuel cs
      | [] => c :: fixTrailingCommasDropWsGo fuel cs
    else c :: fixTrailingCommasDropWsGo fuel cs

def fixTrailingCommasDropWs (l : List Char) : List Char :=
  fixTrailingCommasDropWsGo (l.length + 1) l

/-- `.replace(/([{,]\s*)([a-zA-Z0-9_]+)(\s*:)/g, '$1"$2"$3')` — quote a
bare object key. -/
def quoteBareKeysGo : Nat → List Char → List Char
  | 0, l => l
  | _ + 1, [] => []
  | fuel + 1, c :: cs =>
    if c = lbraceC || c = ',' then
      let ws1 := cs.takeWhile jsSpace
      let r1 := cs.drop ws1.length
      let ident := r1.takeWhile identChar
      let r2 := r1.drop ident.length
      let ws2 := r2.takeWhile jsSpace
      match r2.drop ws2.length with
      | ':' :: r4 =>
        if ident.isEmpty then c :: quoteBareKeysGo fuel cs
        else c :: ws1 ++ '"' :: ident ++ '"' :: ws2 ++ ':' :: quoteBareKeysGo fuel r4
      | _ => c :: quoteBareKeysGo fuel cs
    else c :: quoteBareKeysGo fuel cs

def quoteBareKeys (l : List Char) : List Char := quoteBareKeysGo (l.length + 1) l

/-- `.replace(/'/g, '"')`. -/
def replaceSingleQuotes (l : List Char) : List Char :=
  l.map (fun c => if c = squoteC then '"' else c)

/-- `.replace(/:\s*([a-zA-Z][a-zA-Z0-9_]*)\s*([,}])/g, ':"$1"$2')` — the
bare-value quoting of `repairJSON` (identifier-shaped values; the
whitespace on both sides is not captured and is dropped). -/
def quoteBareValuesIdentGo : Nat → List Char → List Char
  | 0, l => l
  | _ + 1, [] => []
  | fuel + 1, c :: cs =>
    if c = ':' then
      let ws1 := cs.takeWhile jsSpace
      match cs.drop ws1.length with
      | c0 :: r1 =>
        if letterChar c0 then
          let identRest := r1.takeWhile identChar
          let r2 := r1.drop identRest.length
          let ws2 := r2.takeWhile jsSpace
          match r2.drop ws2.length with
          | t :: r4 =>
            if t = ',' || t = rbraceC then
              ':' :: '"' :: c0 :: identRest ++ '"' :: t :: quoteBareValuesIdentGo fuel r4
            else ':' :: quoteBareValuesIdentGo fuel cs
          | [] => ':' :: quoteBareValuesIdentGo fuel cs
        else ':' :: quoteBareValuesIdentGo fuel cs
      | [] => ':' :: quoteBareValuesIdentGo fuel cs
    else c :: quoteBareValuesIdentGo fuel cs

def quoteBareValuesIdent (l : List Char) : List Char :=
  quoteBareValuesIdentGo (l.length + 1) l

def preMidChar (c : Char) : Bool := letterChar c || isDigitChar c || jsSpace c || c = '-'

/-- `.replace(/:\s*([a-zA-Z][a-zA-Z0-9\s-]*[a-zA-Z0-9])(\s*[,}])/g, ':"$1"$2')`
— the bare-value quoting of `preprocessJSON`.  The middle class includes
whitespace and hyphens; the greedy middle backtracks only over trailing
whitespace (a non-whitespace character between the group and the
terminator kills the match), and the group must end in a letter or
digit and have length at least two. -/
def quoteBareValuesPreGo : Nat → List Char → List Char
  | 0, l => l
  | _ + 1, [] => []
  | fuel + 1, c :: cs =>
    if c = ':' then
      let ws1 := cs.takeWhile jsSpace
      match cs.drop ws1.length with
      | c0 :: r1 =>
        if letterChar c0 then
          let run := c0 :: r1.takeWhile preMidChar
          match r1.drop (run.length - 1) with
          | t :: r3 =>
            if t = ',' || t = rbraceC then
              let trimmed := (run.reverse.dropWhile jsSpace).reverse
              let sfx := run.drop trimmed.length
              if 2 ≤ trimmed.length && alnumChar (trimmed.getLastD ' ') then
                ':' :: '"' :: trimmed ++ '"' :: sfx ++ t :: quoteBareValuesPreGo fuel r3
              else ':' :: quoteBareValuesPreGo fuel cs
            else ':' :: quoteBareValuesPreGo fuel cs
          | [] => ':' :: quoteBareValuesPreGo fuel cs
        else ':' :: quoteBareValuesPreGo fuel cs
      | [] => ':' :: quoteBareValuesPreGo fuel cs
    else c :: quoteBareValuesPreGo fuel cs

def quoteBareValuesPre (l : List Char) : List Char :=
  quoteBareValuesPreGo (l.length + 1) l

/-- `.replace(/}(\s*){/g, '},\n$1{')` — insert a missing comma between
adjacent objects. -/
def fixMissingCommasGo : Nat → List Char → List Char
  | 0, l => l
  | _ + 1, [] => []
  | fuel + 1, c :: cs =>
    if c = rbraceC then
      let ws := cs.takeWhile jsSpace
      match cs.drop ws.length with
      | b :: rest2 =>
        if b = lbraceC then
          rbraceC :: ',' :: '\n' :: ws ++ lbraceC :: fixMissingCommasGo fuel rest2
        else c :: fixMissingCommasGo fuel cs
      | [] => c :: fixMissingCommasGo fuel cs
    else c :: fixMissingCommasGo fuel cs

def fixMissingCommas (l : List Char) : List Char := fixMissingCommasGo (l.length + 1) l

def valStartChar (c : Char) : Bool :=
  !(c = '"' || c = ',' || isDigitChar c || c = '[' || c = ']' || c = lbraceC ||
    c = rbraceC || jsSpace c)

def valMidChar (c : Char) : Bool :=
  !(c = '"' || c = ',' || c = '[' || c = ']' || c = lbraceC || c = rbraceC)

/-- `.replace(/"([^"]*)":\s*([^",\d\[\]{}\s][^",\[\]{}]*[^",\d\[\]{}\s])(\s*[,}])/g,
'"$1":"$2"$3')` — quote a bare (non-identifier) string value after a
quoted key.  As in `quoteBareValuesPre`, the greedy middle backtracks
only over trailing whitespace and the group needs length at least two
with first and last character in the start class. -/
def quoteStringValuesGo : Nat → List Char → List Char
  | 0, l => l
  | _ + 1, [] => []
  | fuel + 1, c :: cs =>
    if c = '"' then
      let key := cs.takeWhile (fun d => !(d == '"'))
      match cs.drop key.length with
      | '"' :: ':' :: r3 =>
        let ws1 := r3.takeWhile jsSpace
        match r3.drop ws1.length with
        | c0 :: r4 =>
          if valStartChar c0 then
            let run := c0 :: r4.takeWhile valMidChar
            match r4.drop (run.length - 1) with
            | t :: r6 =>
              if t = ',' || t = rbraceC then
                let trimmed := (run.reverse.dropWhile jsSpace).reverse
                let sfx := run.drop trimmed.length
                if 2 ≤ trimmed.length && valStartChar (trimmed.getLastD ' ') then
                  '"' :: key ++ '"' :: ':' :: '"' :: trimmed ++ '"' :: sfx ++ t ::
                    quoteStringValuesGo fuel r6
                else c :: quoteStringValuesGo fuel cs
              else c :: quoteStringValuesGo fuel cs
            | [] => c :: quoteStringValuesGo fuel cs
          else c :: quoteStringValuesGo fuel cs
        | [] => c :: quoteStringValuesGo fuel cs
      | _ => c :: quoteStringValuesGo fuel cs
    else c :: quoteStringValuesGo fuel cs

def quoteStringValues (l : List Char) : List Char :=
  quoteStringValuesGo (l.length + 1) l

/-- `.replace(/"team":\s*(\d{4})-([A-Z]{3})/g, '"team": "$1-$2"')`. -/
def fixTeamCodesGo : Nat → List Char → List Char
  | 0, l => l
  | _ + 1, [] => []
  | fuel + 1, c :: cs =>
    if (c :: cs).take 7 == ['"', 't', 'e', 'a', 'm', '"', ':'] then
      let r := (c :: cs).drop 7
      let ws := r.takeWhile jsSpace
      match r.drop ws.length with
      | d1 :: d2 :: d3 :: d4 :: '-' :: u1 :: u2 :: u3 :: rest =>
        if isDigitChar d1 && isDigitChar d2 && isDigitChar d3 && isDigitChar d4 &&
            upperChar u1 && upperChar u2 && upperChar u3 then
          '"' :: 't' :: 'e' :: 'a' :: 'm' :: '"' :: ':' :: ' ' :: '"' ::
            d1 :: d2 :: d3 :: d4 :: '-' :: u1 :: u2 :: u3 :: '"' ::
            fixTeamCodesGo fuel rest
        else c :: fixTeamCodesGo fuel cs
      | _ => c :: fixTeamCodesGo fuel cs
    else c :: fixTeamCodesGo fuel cs

def fixTeamCodes (l : List Char) : List Char := fixTeamCodesGo (l.length + 1) l

/-- `.replace(/"year":\s*(\d{4})/g, '"year": "$1"')`. -/
def fixYearStringsGo : Nat → List Char → List Char
  | 0, l => l
  | _ + 1, [] => []
  | fuel + 1, c :: cs =>
    if (c :: cs).take 7 == ['"', 'y', 'e', 'a', 'r', '"', ':'] then
      let r := (c :: cs).drop 7
      let ws := r.takeWhile jsSpace
      match r.drop ws.length with
      | d1 :: d2 :: d3 :: d4 :: rest =>
        if isDigitChar d1 && isDigitChar d2 && isDigitChar d3 && isDigitChar d4 then
          '"' :: 'y' :: 'e' :: 'a' :: 'r' :: '"' :: ':' :: ' ' :: '"' ::
            d1 :: d2 :: d3 :: d4 :: '"' :: fixYearStringsGo fuel rest
        else c :: fixYearStringsGo fuel cs
      | _ => c :: fixYearStringsGo fuel cs
    else c :: fixYearStringsGo fuel cs

def fixYearStrings (l : List Char) : List Char := fixYearStringsGo (l.length + 1) l

/-- `text.indexOf('{') > 0` → drop the prefix. -/
def stripBeforeFirstBrace (l : List Char) : List Char :=
  match l.findIdx? (· = lbraceC) with
  | some i => if i > 0 then l.drop i else l
  | none => l

/-- `text.lastIndexOf('}') !== -1 && < text.length - 1` → cut after it. -/
def stripAfterLastBrace (l : List Char) : List Char :=
  match l.reverse.findIdx? (· = rbraceC) with
  | some j => if j > 0 then l.take (l.length - j) else l
  | none => l

/-- `preprocessJSON` from `route.ts`: markdown-marker removal and trim,
then the four repair replaces, in source order. -/
def preprocessJSON (s : String) : String :=
  let a := jsTrimL (stripBackticks s.data)
  let b := fixTrailingCommasKeepWs a
  let c := quoteBareKeys b
  let d := replaceSingleQuotes c
  let e := quoteBareValuesPre d
  ⟨e⟩

/-- `repairJSON` from `route.ts` (current version): brace cropping, the
first block of four replaces, then the "additional repairs" block. -/
def repairJSON (s : String) : String :=
  let t1 := stripBeforeFirstBrace s.data
  let t2 := stripAfterLastBrace t1
  let t3 := fixTrailingCommasDropWs t2
  let t4 := quoteBareKeys t3
  let t5 := replaceSingleQuotes t4
  let t6 := quoteBareValuesIdent t5
  let t7 := quoteBareKeys t6
  let t8 := fixTrailingCommasKeepWs t7
  let t9 := fixMissingCommas t8
  let t10 := quoteStringValues t9
  let t11 := fixTeamCodes t10
  let t12 := fixYearStrings t11
  ⟨t12⟩

/-! ## A JSON value model (for stating what `JSON.parse` returns)

A recursive-descent reading of the JSON grammar, enough to parse the
concrete inputs used in the theorems: literals, integer numbers,
escape-free strings, arrays and objects.  Inputs outside this fragment
(escapes, fractions, exponents) are rejected rather than misread. -/

inductive JVal where
  | jnull
  | jbool (b : Bool)
  | jnum (n : Int)
  | jstr (s : List Char)
  | jarr (xs : List JVal)
  | jobj (fields : List (List Char × JVal))
deriving Repr

def jsonWs (c : Char) : Bool := c = ' ' || c = '\t' || c = '\n' || c = '\r'

def skipWs (l : List Char) : List Char := l.dropWhile jsonWs

mutual

def parseVal : Nat → List Char → Option (JVal × List Char)
  | 0, _ => none
  | fuel + 1, l =>
    match skipWs l with
    | [] => none
    | c :: cs =>
      if c = 't' then
        if cs.take 3 == ['r', 'u', 'e'] then some (.jbool true, cs.drop 3) else none
      else if c = 'f' then
        if cs.take 4 == ['a', 'l', 's', 'e'] then some (.jbool false, cs.drop 4) else none
      else if c = 'n' then
        if cs.take 3 == ['u', 'l', 'l'] then some (.jnull, cs.drop 3) else none
      else if c = '"' then
        let str := cs.takeWhile (fun d => !(d == '"' || d == '\\'))
        match cs.drop str.length with
        | '"' :: rest => some (.jstr str, rest)
        | _ => none
      else if c = '-' then
        let ds := cs.takeWhile isDigitChar
        if ds.isEmpty then none
        else
          match cs.drop ds.length with
          | d :: _ =>
            if d = '.' || d = 'e' || d = 'E' then none
            else some (.jnum (-(digitsToNat ds : Int)), cs.drop ds.length)
          | [] => some (.jnum (-(digitsToNat ds : Int)), [])
      else if isDigitChar c then
        let ds := (c :: cs).takeWhile isDigitChar
        match (c :: cs).drop ds.length with
        | d :: _ =>
          if d = '.' || d = 'e' || d = 'E' then none
          else some (.jnum (digitsToNat ds : Int), (c :: cs).drop ds.length)
        | [] => some (.jnum (digitsToNat ds : Int), [])
      else if c = '[' then
        match skipWs cs with
        | ']' :: rest => some (.jarr [], rest)
        | _ => match parseArrItems fuel cs with
          | some (xs, rest) => some (.jarr xs, rest)
          | none => none
      else if c = lbraceC then
        match skipWs cs with
        | d :: rest =>
          if d = rbraceC then some (.jobj [], rest)
          else match parseObjFields fuel cs with
            | some (fs, rest2) => some (.jobj fs, rest2)
            | none => none
        | [] => none
      else none

def parseArrItems : Nat → List Char → Option (List JVal × List Char)
  | 0, _ => none
  | fuel + 1, l =>
    match parseVal fuel l with
    | some (v, rest) =>
      match skipWs rest with
      | ',' :: rest2 =>
        match parseArrItems fuel rest2 with
        | some (xs, rest3) => some (v :: xs, rest3)
        | none => none
      | ']' :: rest2 => some ([v], rest2)
      | _ => none
    | none => none

def parseObjFields : Nat → List Char → Option (List (List Char × JVal) × List Char)
  | 0, _ => none
  | fuel + 1, l =>
    match skipWs l with
    | '"' :: cs =>
      let key := cs.takeWhile (fun d => !(d == '"' || d == '\\'))
      match cs.drop key.length with
      | '"' :: rest =>
        match skipWs rest with
        | ':' :: rest2 =>
          match parseVal fuel rest2 with
          | some (v, rest3) =>
            match skipWs rest3 with
            | ',' :: rest4 =>
              match parseObjFields fuel rest4 with
              | some (fs, rest5) => some ((key, v) :: fs, rest5)
              | none => none
            | d :: rest4 =>
              if d = rbraceC then some ([(key, v)], rest4) else none
            | [] => none
          | none => none
        | _ => none
      | _ => none
    | _ => none

end

/-- `JSON.parse` on the modelled fragment: a parsed value with only
trailing whitespace left. -/
def parseJSON (s : String) : Option JVal :=
  match parseVal (2 * s.data.length + 2) s.data with
  | some (v, rest) => if (skipWs rest).isEmpty then some v else none
  | none => none

/-! ## Bridging lemmas -/

theorem string_mk_eq_empty_iff (l : List Char) : (⟨l⟩ : String) = "" ↔ l = [] := by
  constructor
  · intro h
    exact congrArg String.data h
  · intro h
    rw [h]

theorem splitCh_headD_takeWhile (sep : Char) :
    ∀ l : List Char, (splitCh sep l).headD [] = l.takeWhile (fun c => c != sep) := by
  intro l
  induction l with
  | nil => rfl
  | cons c cs ih =>
    cases hs : splitCh sep cs with
    | nil => exact absurd hs (splitCh_ne_nil sep cs)
    | cons w ws =>
      rw [hs] at ih
      simp only [List.headD_cons] at ih
      by_cases h : c = sep
      · subst h
        simp [splitCh, hs]
      · simp only [splitCh, hs, if_neg h, List.headD_cons]
        rw [List.takeWhile_cons_of_pos (by simp [h]), ih]

/-! ## Claim theorems -/

/-- C7: `normalize` is idempotent — for every string `s`,
`normalize(normalize(s)) == normalize(s)` — and strips diacritics, so
`normalize("José") == normalize("Jose") == "jose"`. -/
theorem normalizeText_idem_and_diacritics :
    (∀ s : String, normalizeText (some (normalizeText (some s))) = normalizeText (some s))
    ∧ normalizeText (some "José") = "jose"
    ∧ normalizeText (some "Jose") = "jose" := by
  refine ⟨?_, by decide, by decide⟩
  intro s
  by_cases hs : s = ""
  · subst hs
    rfl
  · have hin : normalizeText (some s) = ⟨normL s.data⟩ := by
      rw [normalizeText, if_neg hs]
    rw [hin, normalizeText]
    by_cases hn : normL s.data = []
    · rw [if_pos ((string_mk_eq_empty_iff _).mpr hn)]
      rw [(string_mk_eq_empty_iff _).mpr hn]
    · rw [if_neg (fun h => hn ((string_mk_eq_empty_iff _).mp h))]
      show (⟨normL (normL s.data)⟩ : String) = ⟨normL s.data⟩
      rw [normL_idem]

/-- C10: when a record's team field contains the sentinel `-N/A` or
`-undefined`, `formatTeam` rewrites it to `<year>-NBA` where `<year>` is
the part of the string before the first hyphen (and returns the empty
string when that part is empty); every other team string, and a missing
team, passes through unchanged (missing becomes the empty string). -/
theorem formatTeam_spec :
    formatTeam none = "" ∧
    ∀ t : String,
      formatTeam (some t) =
        if (strContains t "-N/A" || strContains t "-undefined") = true then
          if t.data.takeWhile (fun c => c != '-') = [] then ""
          else (⟨t.data.takeWhile (fun c => c != '-')⟩ : String) ++ "-NBA"
        else t := by
  refine ⟨rfl, ?_⟩
  intro t
  by_cases hte : t = ""
  · subst hte
    decide
  · rw [formatTeam, if_neg hte]
    by_cases hs : (strContains t "-N/A" || strContains t "-undefined") = true
    · rw [if_pos hs, if_pos hs]
      simp only [splitCh_headD_takeWhile]
      by_cases hy : t.data.takeWhile (fun c => c != '-') = []
      · simp [hy]
      · simp [hy, List.isEmpty_iff]
    · rw [if_neg hs, if_neg hs]

def jsonTrueIn : String := "\x7b\x22valid\x22:true\x7d"
def jsonTrueOut : String := "\x7b\x22valid\x22:\x22true\x22\x7d"

/-- C3: the repair chain is not a no-op on valid JSON.  The valid input
`jsonTrueIn` (an object with one boolean field) is rewritten by
`preprocessJSON` — and likewise by `repairJSON` — into different valid
JSON whose field is the *string* `"true"`: the bare-value quoting stage
treats the JSON literal `true` as an unquoted string.  Both texts parse,
to different values. -/
theorem repair_breaks_valid_json :
    preprocessJSON jsonTrueIn = jsonTrueOut ∧
    repairJSON jsonTrueIn = jsonTrueOut ∧
    parseJSON jsonTrueIn = some (.jobj [("valid".data, .jbool true)]) ∧
    parseJSON jsonTrueOut = some (.jobj [("valid".data, .jstr "true".data)]) ∧
    JVal.jbool true ≠ JVal.jstr "true".data := by
  refine ⟨rfl, rfl, rfl, rfl, ?_⟩
  intro h
  injection h

def curryAnswer : Answer := ⟨0, some "Stephen Curry", some "2016-GSW", some "2016"⟩

/-- C6 (code bug evaluation): on the full-coverage transition the
reported score is the stale pre-update `foundAnswers.size`.  With one
answer and an empty match state, submitting a matching input transitions
ACTIVE→COMPLETE with `|MatchState| = 1` but reports score `0`; the
state machine does ignore a subsequent matching call. -/
theorem quizStep_reports_stale_score :
    quizStep [curryAnswer] ⟨∅, "", 100, false⟩ (.submit "curry")
      = (⟨{0}, "", 100, true⟩, some 0) ∧
    ({0} : Finset ℕ).card = 1 ∧
    quizStep [curryAnswer] ⟨{0}, "", 100, true⟩ (.submit "curry")
      = (⟨{0}, "", 100, true⟩, none) := by
  refine ⟨by decide, by decide, by decide⟩

theorem pairwise_of_forall_mem_rel {α : Type} {R : α → α → Prop} :
    ∀ (l : List α), (∀ a ∈ l, ∀ b ∈ l, R a b) → l.Pairwise R := by
  intro l
  induction l with
  | nil => intro _; exact List.Pairwise.nil
  | cons a as ih =>
    intro h
    refine List.Pairwise.cons ?_ (ih ?_)
    · intro b hb
      exact h a (List.mem_cons_self _ _) b (List.mem_cons_of_mem _ hb)
    · intro x hx y hy
      exact h x (List.mem_cons_of_mem _ hx) y (List.mem_cons_of_mem _ hy)

theorem postOutcome_fetch_irrelevant (t : String) (cy : Nat)
    (h : categoryIncludesPoints (statCategoryFor t) = false)
    (f : Option (List Answer)) :
    postOutcome f t cy = postOutcome none t cy := by
  unfold postOutcome generateYearlyLeadersQuiz
  simp [h]

def threePtTopic : String := "Every player with 10+ three-pointers in a game"
def yearlyTopic : String := "Top 5 leaders in points per game each year from 2020 to 2022"

/-- C4 (code-bug evaluation): for the topic "Every player with 10+
three-pointers in a game" the current POST handler never consults the
curated three-pointers dataset — no three-pointers check exists in the
dispatch (`generateThreePointersQuiz` is defined but unreachable), the
topic matches neither curated pattern, and the request is served by
`generateYearlyLeadersQuiz` with category `PTS`, which, whatever the
fetch result, returns synthesized placeholder records (evaluated here
with `currentYear = 2010`; the first record is the fabricated
"Player 1 in PTS for 2010").  The returned answers are not the curated
non-empty dataset. -/
theorem post_threePointers_topic_not_curated :
    (∀ fetchResult, postOutcome fetchResult threePtTopic 2010 =
      .yearly (generateYearlyLeadersQuiz none threePtTopic 2010 2010 2010 "PTS" 20)) ∧
    (generateYearlyLeadersQuiz none threePtTopic 2010 2010 2010 "PTS" 20).answers.head? =
      some ⟨0, some "Player 1 in PTS for 2010", some "2010-NBA", some "2010"⟩ ∧
    (generateYearlyLeadersQuiz none threePtTopic 2010 2010 2010 "PTS" 20).answers ≠
      (generateThreePointersQuiz 10).answers ∧
    (generateThreePointersQuiz 10).answers ≠ [] := by
  refine ⟨?_, by decide, by decide, by decide⟩
  intro f
  rw [postOutcome_fetch_irrelevant _ _ (by decide) f]
  decide

/-- C5 (code-bug evaluation): for the topic "Top 5 leaders in points per
game each year from 2020 to 2022", the year range is extracted as
{2020, 2022} but the handler passes stat category `"PTS"` and the
hardcoded limit `20` (not 5) to `generateYearlyLeadersQuiz`; since
`'pts'` contains neither `'points'` nor `'ppg'`, the live source is
never consulted — the outcome is independent of the fetch result — and
60 synthesized placeholder records are returned.  `fetchRequestYears`
records the one-request-per-season years the live strategy would have
used had it been invoked. -/
theorem post_yearlyLeaders_topic_never_fetches :
    extractYears yearlyTopic.data = [2020, 2022] ∧
    statCategoryFor yearlyTopic = "PTS" ∧
    categoryIncludesPoints "PTS" = false ∧
    (∀ fetchResult, postOutcome fetchResult yearlyTopic 2025 =
      .yearly (generateYearlyLeadersQuiz none yearlyTopic 2020 2022 2025 "PTS" 20)) ∧
    (generateYearlyLeadersQuiz none yearlyTopic 2020 2022 2025 "PTS" 20).answers =
      placeholderAnswers 2020 2022 2025 "PTS" 20 ∧
    (placeholderAnswers 2020 2022 2025 "PTS" 20).length = 60 ∧
    fetchRequestYears 2020 2022 2025 = [2020, 2021, 2022] := by
  refine ⟨by decide, by decide, by decide, ?_, by decide, by decide, by decide⟩
  intro f
  rw [postOutcome_fetch_irrelevant _ _ (by decide) f]
  decide

theorem mem_placeholderAnswers {r : Answer} {sy ey cy : Nat} {cat : String} {lim : Nat}
    (h : r ∈ placeholderAnswers sy ey cy cat lim) :
    ∃ i y, 1 ≤ i ∧ i ≤ lim ∧ sy ≤ y ∧ y ≤ min ey cy ∧
      r = ⟨0, some ("Player " ++ toString i ++ " in " ++ cat ++ " for " ++ toString y),
           some (toString y ++ "-NBA"), some (toString y)⟩ := by
  unfold placeholderAnswers placeholderItems yearsRange at h
  simp only [List.mem_map, List.mem_flatMap, List.mem_range'_1, List.mem_range] at h
  obtain ⟨item, ⟨year, hy, ⟨i, hi, hitem⟩⟩, hr⟩ := h
  refine ⟨i + 1, year, by omega, by omega, by omega, by omega, ?_⟩
  rw [← hr, ← hitem]

/-- C1 counterexample: a failed live fetch (the `catch` branch of
`fetchYearlyPointsLeaders`, which returns `null`) for a points category
is silently replaced by a fabricated non-empty answer set of synthesized
placeholder records, which the caller returns as a quiz. -/
theorem yearly_quiz_fabricates_on_fetch_failure :
    (generateYearlyLeadersQuiz none "points per game quiz" 2020 2020 2025
        "points per game" 2).answers
      = placeholderAnswers 2020 2020 2025 "points per game" 2 ∧
    categoryIncludesPoints "points per game" = true ∧
    placeholderAnswers 2020 2020 2025 "points per game" 2 ≠ [] ∧
    placeholderAnswers 2020 2020 2025 "points per game" 2 =
      [⟨0, some "Player 1 in points per game for 2020", some "2020-NBA", some "2020"⟩,
       ⟨0, some "Player 2 in points per game for 2020", some "2020-NBA", some "2020"⟩] := by
  exact ⟨by decide, by decide, by decide, by decide⟩

/-- C1 (amended): every non-empty answer set returned by
`generateYearlyLeadersQuiz` either is exactly the live fetch result
(possible only when the category mentions points/ppg and the fetch did
not fail), or consists entirely of synthesized placeholder records
`Player i in <category> for <year>`: a failed (or never-attempted)
acquisition is swallowed into fabricated records rather than
propagated. -/
theorem yearly_quiz_answers_characterization
    (fetchResult : Option (List Answer)) (topic : String)
    (sy ey cy : Nat) (cat : String) (lim : Nat)
    (hne : (generateYearlyLeadersQuiz fetchResult topic sy ey cy cat lim).answers ≠ []) :
    (categoryIncludesPoints cat = true ∧
      fetchResult =
        some (generateYearlyLeadersQuiz fetchResult topic sy ey cy cat lim).answers)
    ∨ (∀ r ∈ (generateYearlyLeadersQuiz fetchResult topic sy ey cy cat lim).answers,
        ∃ i y, 1 ≤ i ∧ i ≤ lim ∧ sy ≤ y ∧ y ≤ min ey cy ∧
          r = ⟨0, some ("Player " ++ toString i ++ " in " ++ cat ++ " for " ++ toString y),
               some (toString y ++ "-NBA"), some (toString y)⟩) := by
  by_cases hc : categoryIncludesPoints cat = true
  · cases hf : fetchResult with
    | some a =>
      left
      refine ⟨hc, ?_⟩
      unfold generateYearlyLeadersQuiz
      simp [hc]
    | none =>
      right
      intro r hr
      apply mem_placeholderAnswers
      unfold generateYearlyLeadersQuiz at hr
      simpa [hc] using hr
  · right
    intro r hr
    apply mem_placeholderAnswers
    unfold generateYearlyLeadersQuiz at hr
    simpa [hc] using hr

/-- Witness for the C1 amended theorem at a concrete input. -/
theorem yearly_quiz_answers_characterization_witness :
    (categoryIncludesPoints "PTS" = true ∧
      (none : Option (List Answer)) =
        some (generateYearlyLeadersQuiz none "points quiz" 2020 2020 2025 "PTS" 1).answers)
    ∨ (∀ r ∈ (generateYearlyLeadersQuiz none "points quiz" 2020 2020 2025 "PTS" 1).answers,
        ∃ i y, 1 ≤ i ∧ i ≤ 1 ∧ 2020 ≤ y ∧ y ≤ min 2020 2025 ∧
          r = ⟨0, some ("Player " ++ toString i ++ " in " ++ "PTS" ++ " for " ++ toString y),
               some (toString y ++ "-NBA"), some (toString y)⟩) :=
  yearly_quiz_answers_characterization none "points quiz" 2020 2020 2025 "PTS" 1 (by decide)

/-- C8: the answer list presented to the matching engine and display is
the input records ordered by descending year key, ties keeping their
original relative order (a stable sort), obtained as a pure function of
the records (the underlying `answers` array is copied, never mutated —
in this functional embedding, `sortedAnswers` leaves its argument
untouched by construction and the permutation clause states that the
records are exactly the input ones).  The hypothesis restricts to
records whose year field parses (the data-model invariant); for a
non-numeric year the JavaScript comparator returns `NaN` and the order
is implementation-defined. -/
theorem sortedAnswers_spec (answers : List Answer)
    (hnum : ∀ r ∈ answers, (yearKeyNum r).isSome = true) :
    (sortedAnswers answers).Perm answers ∧
    (sortedAnswers answers).Pairwise (fun a b => yearKey b ≤ yearKey a) ∧
    ∀ k : Int, (sortedAnswers answers).filter (fun r => yearKey r == k)
      = answers.filter (fun r => yearKey r == k) := by
  have htrans : ∀ (a b c : Answer),
      (fun a b => decide (yearKey b ≤ yearKey a)) a b = true →
      (fun a b => decide (yearKey b ≤ yearKey a)) b c = true →
      (fun a b => decide (yearKey b ≤ yearKey a)) a c = true := by
    intro a b c h1 h2
    simp only [decide_eq_true_eq] at h1 h2 ⊢
    exact le_trans h2 h1
  have htotal : ∀ (a b : Answer),
      ((fun a b => decide (yearKey b ≤ yearKey a)) a b ||
        (fun a b => decide (yearKey b ≤ yearKey a)) b a) = true := by
    intro a b
    simp only [Bool.or_eq_true, decide_eq_true_eq]
    exact le_total (yearKey b) (yearKey a)
  refine ⟨List.mergeSort_perm answers _, ?_, ?_⟩
  · have := List.sorted_mergeSort htrans htotal answers
    exact this.imp (fun h => by simpa using h)
  · intro k
    have hpw : (answers.filter (fun r => yearKey r == k)).Pairwise
        (fun a b => (fun a b => decide (yearKey b ≤ yearKey a)) a b = true) := by
      apply pairwise_of_forall_mem_rel
      intro a ha b hb
      rw [List.mem_filter] at ha hb
      have ha2 : yearKey a = k := by simpa using ha.2
      have hb2 : yearKey b = k := by simpa using hb.2
      simp [ha2, hb2]
    have hsub : (answers.filter (fun r => yearKey r == k)).Sublist (sortedAnswers answers) :=
      List.mergeSort_stable htrans htotal hpw (List.filter_sublist answers)
    have hsub2 : (answers.filter (fun r => yearKey r == k)).Sublist
        ((sortedAnswers answers).filter (fun r => yearKey r == k)) := by
      have := List.Sublist.filter (fun r => yearKey r == k) hsub
      have hfe : (fun a : Answer => (yearKey a == k) && (yearKey a == k))
          = (fun r : Answer => yearKey r == k) := by
        funext a
        exact Bool.and_self _
      rwa [List.filter_filter, hfe] at this
    have hperm : ((sortedAnswers answers).filter (fun r => yearKey r == k)).Perm
        (answers.filter (fun r => yearKey r == k)) :=
      List.Perm.filter _ (List.mergeSort_perm answers _)
    exact (List.Sublist.eq_of_length hsub2 hperm.length_eq.symm).symm

/-- Witness for C8 at a concrete input: two equal keys keep their
relative order under the descending stable sort. -/
theorem sortedAnswers_spec_witness :
    (sortedAnswers [⟨0, some "A", some "", some "2016"⟩,
        ⟨0, some "B", some "", some "2020"⟩, ⟨0, some "C", some "", some "2020"⟩]).Perm
      [⟨0, some "A", some "", some "2016"⟩, ⟨0, some "B", some "", some "2020"⟩,
        ⟨0, some "C", some "", some "2020"⟩] ∧
    (sortedAnswers [⟨0, some "A", some "", some "2016"⟩,
        ⟨0, some "B", some "", some "2020"⟩, ⟨0, some "C", some "", some "2020"⟩]).Pairwise
      (fun a b => yearKey b ≤ yearKey a) ∧
    ∀ k : Int, (sortedAnswers [⟨0, some "A", some "", some "2016"⟩,
        ⟨0, some "B", some "", some "2020"⟩,
        ⟨0, some "C", some "", some "2020"⟩]).filter (fun r => yearKey r == k)
      = [⟨0, some "A", some "", some "2016"⟩, ⟨0, some "B", some "", some "2020"⟩,
          ⟨0, some "C", some "", some "2020"⟩].filter (fun r => yearKey r == k) :=
  sortedAnswers_spec _ (by decide)

/-- C9: the matching engine is total on degenerate input: an input that
is empty or whitespace-only leaves the match state unchanged, normalizing
a `null`/`undefined` string returns the empty string, and a record whose
player name is missing or empty is never matched (every newly added
index has a truthy player). -/
theorem matching_total_on_degenerate_input :
    (∀ (answers : List Answer) (found : Finset ℕ) (value : String),
      jsTrim value = "" → checkAnswer answers found value = found) ∧
    normalizeText none = "" ∧
    (∀ (answers : List Answer) (found : Finset ℕ) (value : String) (i : ℕ),
      i ∈ checkAnswer answers found value → i ∉ found →
      strTruthy (answers.getD i default).player = true) := by
  refine ⟨?_, rfl, ?_⟩
  · intro answers found value h
    rw [checkAnswer, if_pos h]
  · intro answers found value i hmem hnf
    rw [checkAnswer] at hmem
    by_cases ht : jsTrim value = ""
    · rw [if_pos ht] at hmem
      exact absurd hmem hnf
    · rw [if_neg ht] at hmem
      by_cases he : matchedIndices answers found value = ∅
      · simp only [he, if_pos] at hmem
        exact absurd hmem hnf
      · simp only [he, if_neg, reduceIte] at hmem
        rcases Finset.mem_union.mp hmem with h1 | h2
        · exact absurd h1 hnf
        · rw [matchedIndices, Finset.mem_filter] at h2
          exact h2.2.2.1

/-- Witness for C9 at concrete inputs: a whitespace-only submission is a
no-op, and the index added for "curry" (skipping the player-less record)
carries a truthy player. -/
theorem matching_total_witness :
    checkAnswer [⟨0, none, none, none⟩, curryAnswer] ∅ "  " = ∅ ∧
    normalizeText none = "" ∧
    strTruthy ([⟨0, none, none, none⟩, curryAnswer].getD 1 default).player = true :=
  ⟨matching_total_on_degenerate_input.1 _ _ _ (by decide),
   matching_total_on_degenerate_input.2.1,
   matching_total_on_degenerate_input.2.2 [⟨0, none, none, none⟩, curryAnswer] ∅ "curry" 1
     (by decide) (by decide)⟩

/-! ## Support for the matching-engine characterization (C2) -/

def allWs (l : List Char) : Prop := ∀ c ∈ l, jsSpace c = true

def pipeL (l : List Char) : List Char :=
  (((l.map jsLower).flatMap jsNFKD).filter (fun c => !isMark c)).filter keepChar

theorem normL_eq_pipe (l : List Char) : normL l = jsTrimL (pipeL l) := rfl

theorem jsSpace_jsLower {b : Char} (h : jsSpace b = true) : jsLower b = b := by
  have := jsSpace_toNat h
  unfold jsLower
  rw [if_neg (by omega), if_neg (by omega)]

theorem nfkdTable_ws_values :
    ∀ p ∈ nfkdTable, jsSpace p.1 = true → ∀ c ∈ p.2, jsSpace c = true := by decide

theorem jsNFKD_ws {b : Char} (h : jsSpace b = true) : ∀ d ∈ jsNFKD b, jsSpace d = true := by
  intro d hd
  unfold jsNFKD at hd
  cases hlk : nfkdTable.lookup b with
  | none =>
    rw [hlk] at hd
    simp only [List.mem_singleton] at hd
    subst hd
    exact h
  | some v =>
    rw [hlk] at hd
    exact nfkdTable_ws_values _ (lookup_some_mem _ _ _ hlk) h d hd

theorem pipeL_append (a b : List Char) : pipeL (a ++ b) = pipeL a ++ pipeL b := by
  unfold pipeL
  rw [List.map_append, List.flatMap_append, List.filter_append, List.filter_append]

theorem pipeL_allWs {w : List Char} (h : allWs w) : allWs (pipeL w) := by
  intro c hc
  unfold pipeL at hc
  rw [List.mem_filter] at hc
  obtain ⟨hc, _⟩ := hc
  rw [List.mem_filter] at hc
  obtain ⟨hc, _⟩ := hc
  rw [List.mem_flatMap] at hc
  obtain ⟨a, ha, hmem⟩ := hc
  rw [List.mem_map] at ha
  obtain ⟨b, hb, hab⟩ := ha
  subst hab
  have hbw := h b hb
  rw [jsSpace_jsLower hbw] at hmem
  exact jsNFKD_ws hbw c hmem

theorem dropWhile_allWs_nil {u : List Char} (h : allWs u) : u.dropWhile jsSpace = [] :=
  List.dropWhile_eq_nil_iff.mpr h

theorem trimL_ws_prefix {u : List Char} (hu : allWs u) (x : List Char) :
    jsTrimL (u ++ x) = jsTrimL x := by
  unfold jsTrimL
  rw [List.dropWhile_append]
  rw [if_pos (by simp [dropWhile_allWs_nil hu])]

theorem trimL_ws_suffix {v : List Char} (hv : allWs v) (x : List Char) :
    jsTrimL (x ++ v) = jsTrimL x := by
  have hvr : allWs v.reverse := fun c hc => hv c (List.mem_reverse.mp hc)
  unfold jsTrimL
  rw [List.dropWhile_append]
  by_cases hx : (x.dropWhile jsSpace).isEmpty = true
  · rw [if_pos hx]
    rw [dropWhile_allWs_nil hv]
    rw [List.isEmpty_iff] at hx
    rw [hx]
  · rw [if_neg hx]
    rw [List.reverse_append, List.dropWhile_append]
    rw [if_pos (by simp [dropWhile_allWs_nil hvr])]

theorem allWs_of_trim_nil {w : List Char} (h : jsTrimL w = []) : allWs w := by
  have h2 : (w.dropWhile jsSpace).reverse.dropWhile jsSpace = [] := by
    have := congrArg List.reverse h
    simpa [jsTrimL] using this
  have h4 : ∀ x ∈ w.dropWhile jsSpace, jsSpace x = true := fun x hx =>
    List.dropWhile_eq_nil_iff.mp h2 x (List.mem_reverse.mpr hx)
  have h5 : w.dropWhile jsSpace = [] := by
    cases hd : w.dropWhile jsSpace with
    | nil => rfl
    | cons a as =>
      have hna := dropWhile_head_not w a (by rw [hd]; rfl)
      have hwa := h4 a (by rw [hd]; exact List.mem_cons_self _ _)
      rw [hwa] at hna
      cases hna
  exact List.dropWhile_eq_nil_iff.mp h5

theorem joinCh_cons_eq (t : List Char) (L : List (List Char)) (h : L ≠ []) :
    joinCh ' ' (t :: L) = t ++ ' ' :: joinCh ' ' L := by
  cases L with
  | nil => exact absurd rfl h
  | cons x xs => rfl

theorem joinTail_allWs (L : List (List Char)) (h : ∀ w ∈ L, allWs w) :
    allWs (joinTail ' ' L) := by
  induction L with
  | nil => intro c hc; simp [joinTail] at hc
  | cons w ws ih =>
    intro c hc
    rw [joinTail] at hc
    rcases List.mem_cons.mp hc with h1 | h1
    · subst h1; decide
    · rcases List.mem_append.mp h1 with h2 | h2
      · exact h w (List.mem_cons_self _ _) c h2
      · exact ih (fun x hx => h x (List.mem_cons_of_mem _ hx)) c h2

theorem joinCh_ws_prefix :
    ∀ (L1 rest : List (List Char)), rest ≠ [] → (∀ w ∈ L1, allWs w) →
      ∃ u, allWs u ∧ joinCh ' ' (L1 ++ rest) = u ++ joinCh ' ' rest := by
  intro L1
  induction L1 with
  | nil =>
    intro rest _ _
    refine ⟨[], ?_, rfl⟩
    intro c hc
    cases hc
  | cons w L1' ih =>
    intro rest hne hws
    obtain ⟨u', hu', heq⟩ := ih rest hne (fun x hx => hws x (List.mem_cons_of_mem _ hx))
    have hLne : L1' ++ rest ≠ [] := by
      intro hcontra
      exact hne (List.append_eq_nil.mp hcontra).2
    refine ⟨w ++ ' ' :: u', ?_, ?_⟩
    · intro c hc
      rcases List.mem_append.mp hc with h | h
      · exact hws w (List.mem_cons_self _ _) c h
      · rcases List.mem_cons.mp h with h | h
        · subst h; decide
        · exact hu' c h
    · rw [List.cons_append, joinCh_cons_eq w (L1' ++ rest) hLne, heq]
      simp [List.append_assoc]

/-- For a name with exactly one non-blank token, the normalized full
name equals the normalized token: the surrounding material is whitespace
that the pipeline preserves and the final trim removes. -/
theorem normL_single_token (p t : List Char) (h : nameParts p = [t]) :
    normL p = normL t := by
  have hro := joinCh_splitCh ' ' p
  unfold nameParts at h
  rw [List.filter_eq_cons_iff] at h
  obtain ⟨L1, L2, hsplit, h1, _, h2⟩ := h
  rw [List.filter_eq_nil_iff] at h2
  have hL1 : ∀ w ∈ L1, allWs w := by
    intro w hw
    apply allWs_of_trim_nil
    have := h1 w hw
    simpa using this
  have hL2 : ∀ w ∈ L2, allWs w := by
    intro w hw
    apply allWs_of_trim_nil
    have := h2 w hw
    simpa using this
  have hp : joinCh ' ' (L1 ++ t :: L2) = p := by
    rw [← hsplit]
    exact hro
  obtain ⟨u, hu, hequ⟩ := joinCh_ws_prefix L1 (t :: L2) (by simp) hL1
  have hvw : allWs (joinTail ' ' L2) := joinTail_allWs L2 hL2
  have hpdecomp : p = u ++ (t ++ joinTail ' ' L2) := by
    rw [← hp, hequ]
    rfl
  rw [hpdecomp, normL_eq_pipe, pipeL_append, pipeL_append,
    trimL_ws_prefix (pipeL_allWs hu), trimL_ws_suffix (pipeL_allWs hvw)]
  rfl

/-! ## The claim-side matching rule (C2), phrased as in the specification -/

/-- Record `j` "has the normalized first token `t`": it has a (truthy)
player name whose first whitespace-separated token normalizes to `t`. -/
def hasNormFirstToken (answers : List Answer) (j : Nat) (t : List Char) : Prop :=
  strTruthy (answers.getD j default).player = true ∧
  ∃ w, (nameParts (playerStr (answers.getD j default)).data).head? = some w ∧ normL w = t

/-- "No *other* record in the entire AnswerSet (matched or not) has the
same normalized first token." -/
def claimUniqueFirst (answers : List Answer) (i : Nat) (t : List Char) : Prop :=
  ∀ j, j < answers.length → j ≠ i → ¬hasNormFirstToken answers j t

/-- The claim's matching rule for the record at index `i` against the
normalized input: normalized full name equals the input, or the last name
token normalizes equal to the input, or the first name token normalizes
equal to the input and that normalized first name is unique across the
whole answer set. -/
def claimRule (answers : List Answer) (i : Nat) (nInput : List Char) : Prop :=
  normL (playerStr (answers.getD i default)).data = nInput
  ∨ (∃ t, (nameParts (playerStr (answers.getD i default)).data).getLast? = some t ∧
      normL t = nInput)
  ∨ (∃ t, (nameParts (playerStr (answers.getD i default)).data).head? = some t ∧
      normL t = nInput ∧ claimUniqueFirst answers i (normL t))

theorem token_mem_ne_nil {p w : List Char} (h : w ∈ nameParts p) : w ≠ [] := by
  unfold nameParts at h
  rw [List.mem_filter] at h
  intro hc
  subst hc
  have h2 : ¬jsTrimL ([] : List Char) = [] := by simpa using h.2
  exact h2 rfl

theorem getLastD_mem {α : Type} (l : List α) (d : α) (h : l ≠ []) : l.getLastD d ∈ l := by
  rw [List.getLastD_eq_getLast?]
  cases hgl : l.getLast? with
  | none => exact absurd (List.getLast?_eq_none_iff.mp hgl) h
  | some x => simpa using List.mem_of_getLast?_eq_some hgl

theorem getLast?_eq_getLastD {α : Type} (l : List α) (d : α) (h : l ≠ []) :
    l.getLast? = some (l.getLastD d) := by
  rw [List.getLastD_eq_getLast?]
  cases hgl : l.getLast? with
  | none => exact absurd (List.getLast?_eq_none_iff.mp hgl) h
  | some x => rfl

theorem isUniqueFirstName_iff (answers : List Answer) (i : Nat) (t0 : List Char)
    (ht0 : t0 ≠ [])
    (H : ∀ r ∈ answers, strTruthy r.player = true ∧ nameParts (playerStr r).data ≠ []) :
    isUniqueFirstName answers t0 i = true ↔ claimUniqueFirst answers i (normL t0) := by
  unfold isUniqueFirstName
  rw [if_neg (by simpa [List.isEmpty_iff] using ht0)]
  rw [beq_iff_eq, List.countP_eq_zero]
  constructor
  · intro hall j hj hji hhas
    obtain ⟨htr, w, hw, hnw⟩ := hhas
    apply hall j (List.mem_range.mpr hj)
    have hfw : firstNameOf (playerStr (answers.getD j default)).data = w := by
      unfold firstNameOf
      cases hnp : nameParts (playerStr (answers.getD j default)).data with
      | nil => rw [hnp] at hw; cases hw
      | cons a as =>
        rw [hnp] at hw
        simp only [List.head?_cons, Option.some.injEq] at hw
        rw [hw]
        rfl
    simp only [Bool.and_eq_true, beq_iff_eq, Bool.not_eq_true']
    refine ⟨⟨?_, htr⟩, ?_⟩
    · simp [hji]
    · rw [hfw, hnw]
  · intro hclaim a ha hpred
    simp only [Bool.and_eq_true, beq_iff_eq] at hpred
    obtain ⟨⟨hne, htr⟩, hnorm⟩ := hpred
    have hja : a < answers.length := List.mem_range.mp ha
    have hmem : answers.getD a default ∈ answers := by
      rw [List.getD_eq_getElem _ _ hja]
      exact List.getElem_mem hja
    have hane : a ≠ i := by
      intro hcontra
      rw [hcontra] at hne
      simp at hne
    apply hclaim a hja hane
    refine ⟨htr, firstNameOf (playerStr (answers.getD a default)).data, ?_, hnorm⟩
    have htk := (H _ hmem).2
    cases hnp : nameParts (playerStr (answers.getD a default)).data with
    | nil => exact absurd hnp htk
    | cons b bs =>
      unfold firstNameOf
      rw [hnp]
      rfl


theorem not_isEmpty_of_ne_nil {α : Type} {l : List α} (h : l ≠ []) : (!l.isEmpty) = true := by
  cases l with
  | nil => exact absurd rfl h
  | cons a as => rfl

theorem matchRule_iff_claimRule (answers : List Answer) (i : Nat) (n : List Char)
    (H : ∀ r ∈ answers, strTruthy r.player = true ∧ nameParts (playerStr r).data ≠ [])
    (hi : i < answers.length) :
    matchRule answers i n = true ↔ claimRule answers i n := by
  have hmem : answers.getD i default ∈ answers := by
    rw [List.getD_eq_getElem _ _ hi]
    exact List.getElem_mem hi
  obtain ⟨htr, htk⟩ := H _ hmem
  cases hnp : nameParts (playerStr (answers.getD i default)).data with
  | nil => exact absurd hnp htk
  | cons t0 rest =>
    have ht0mem : t0 ∈ nameParts (playerStr (answers.getD i default)).data := by
      rw [hnp]
      exact List.mem_cons_self _ _
    have ht0ne : t0 ≠ [] := token_mem_ne_nil ht0mem
    have hfn : firstNameOf (playerStr (answers.getD i default)).data = t0 := by
      unfold firstNameOf
      rw [hnp]
      rfl
    have hhead : (nameParts (playerStr (answers.getD i default)).data).head? = some t0 := by
      rw [hnp]
      rfl
    have huiff := isUniqueFirstName_iff answers i t0 ht0ne H
    unfold matchRule claimRule
    cases rest with
    | nil =>
      have hln : lastNameOf (playerStr (answers.getD i default)).data = [] := by
        unfold lastNameOf
        rw [hnp]
        simp
      have hsingle := normL_single_token _ t0 hnp
      constructor
      · intro h
        rw [Bool.or_eq_true, Bool.or_eq_true] at h
        rcases h with (hA | hB) | hC
        · exact Or.inl (by rwa [beq_iff_eq] at hA)
        · rw [Bool.and_eq_true, hln] at hB
          simp at hB
        · rw [Bool.and_eq_true, Bool.and_eq_true, hfn] at hC
          obtain ⟨⟨_, hCeq⟩, hCu⟩ := hC
          rw [beq_iff_eq] at hCeq
          exact Or.inr (Or.inr ⟨t0, hhead, hCeq, huiff.mp hCu⟩)
      · intro h
        rw [Bool.or_eq_true, Bool.or_eq_true]
        rcases h with hA | ⟨t, ht, h2⟩ | ⟨t, ht, h2, hu⟩
        · left; left
          rwa [beq_iff_eq]
        · rw [hnp, List.getLast?_singleton] at ht
          injection ht with ht
          subst ht
          left; left
          rw [beq_iff_eq, hsingle]
          exact h2
        · rw [hhead] at ht
          injection ht with ht
          subst ht
          right
          rw [Bool.and_eq_true, Bool.and_eq_true, hfn]
          exact ⟨⟨not_isEmpty_of_ne_nil ht0ne, by rw [beq_iff_eq]; exact h2⟩, huiff.mpr hu⟩
    | cons t1 rest2 =>
      have hlne : (t0 :: t1 :: rest2 : List (List Char)) ≠ [] := by simp
      have hlmem : (t0 :: t1 :: rest2).getLastD [] ∈
          nameParts (playerStr (answers.getD i default)).data := by
        rw [hnp]
        exact getLastD_mem _ _ hlne
      have hlnne : (t0 :: t1 :: rest2).getLastD [] ≠ [] := token_mem_ne_nil hlmem
      have hln : lastNameOf (playerStr (answers.getD i default)).data =
          (t0 :: t1 :: rest2).getLastD [] := by
        unfold lastNameOf
        rw [hnp]
        simp
      have hglast : (nameParts (playerStr (answers.getD i default)).data).getLast? =
          some ((t0 :: t1 :: rest2).getLastD []) := by
        rw [hnp]
        exact getLast?_eq_getLastD _ _ hlne
      constructor
      · intro h
        rw [Bool.or_eq_true, Bool.or_eq_true] at h
        rcases h with (hA | hB) | hC
        · exact Or.inl (by rwa [beq_iff_eq] at hA)
        · rw [Bool.and_eq_true, hln] at hB
          obtain ⟨_, hBeq⟩ := hB
          rw [beq_iff_eq] at hBeq
          exact Or.inr (Or.inl ⟨_, hglast, hBeq⟩)
        · rw [Bool.and_eq_true, Bool.and_eq_true, hfn] at hC
          obtain ⟨⟨_, hCeq⟩, hCu⟩ := hC
          rw [beq_iff_eq] at hCeq
          exact Or.inr (Or.inr ⟨t0, hhead, hCeq, huiff.mp hCu⟩)
      · intro h
        rw [Bool.or_eq_true, Bool.or_eq_true]
        rcases h with hA | ⟨t, ht, h2⟩ | ⟨t, ht, h2, hu⟩
        · left; left
          rwa [beq_iff_eq]
        · rw [hglast] at ht
          injection ht with ht
          subst ht
          left; right
          rw [Bool.and_eq_true, hln]
          exact ⟨not_isEmpty_of_ne_nil hlnne, by rw [beq_iff_eq]; exact h2⟩
        · rw [hhead] at ht
          injection ht with ht
          subst ht
          right
          rw [Bool.and_eq_true, Bool.and_eq_true, hfn]
          exact ⟨⟨not_isEmpty_of_ne_nil ht0ne, by rw [beq_iff_eq]; exact h2⟩, huiff.mpr hu⟩

/-- C2 (amended): for every AnswerSet, MatchState and input, (a) an input
that is empty or whitespace-only leaves MatchState unchanged (the engine
returns before matching); and (b) for any other input — on an AnswerSet
of well-formed records (each player name present and containing at least
one non-blank name token, per the data-model invariant) — one call adds
to MatchState exactly the not-yet-matched records whose normalized full
name equals the normalized input, or whose last name token normalizes
equal to the input, or whose first name token normalizes equal to the
input with no other record in the entire AnswerSet (matched or not)
having the same normalized first token; all such records are added in
the same step, and if no record matches, MatchState is unchanged. -/
theorem checkAnswer_spec (answers : List Answer) (found : Finset ℕ) (value : String) :
    (jsTrim value = "" → checkAnswer answers found value = found) ∧
    (jsTrim value ≠ "" →
      (∀ r ∈ answers, strTruthy r.player = true ∧ nameParts (playerStr r).data ≠ []) →
      ∀ i, i ∈ checkAnswer answers found value ↔
        (i ∈ found ∨
          (i < answers.length ∧ i ∉ found ∧ claimRule answers i (normL value.data)))) := by
  constructor
  · intro h
    rw [checkAnswer, if_pos h]
  · intro ht H i
    have hm : ∀ j, j ∈ matchedIndices answers found value ↔
        (j < answers.length ∧ j ∉ found ∧ claimRule answers j (normL value.data)) := by
      intro j
      rw [matchedIndices, Finset.mem_filter, Finset.mem_range]
      constructor
      · rintro ⟨hj, hnf, _, hrule⟩
        exact ⟨hj, hnf, (matchRule_iff_claimRule answers j _ H hj).mp hrule⟩
      · rintro ⟨hj, hnf, hrule⟩
        have hmem : answers.getD j default ∈ answers := by
          rw [List.getD_eq_getElem _ _ hj]
          exact List.getElem_mem hj
        exact ⟨hj, hnf, (H _ hmem).1,
          (matchRule_iff_claimRule answers j _ H hj).mpr hrule⟩
    rw [checkAnswer, if_neg ht]
    show i ∈ (if matchedIndices answers found value = ∅ then found
        else found ∪ matchedIndices answers found value) ↔ _
    by_cases he : matchedIndices answers found value = ∅
    · rw [if_pos he]
      constructor
      · exact fun h => Or.inl h
      · rintro (h | hrest)
        · exact h
        · exfalso
          have := (hm i).mpr hrest
          rw [he] at this
          exact Finset.not_mem_empty i this
    · rw [if_neg he, Finset.mem_union]
      constructor
      · rintro (h | h)
        · exact Or.inl h
        · exact Or.inr ((hm i).mp h)
      · rintro (h | h)
        · exact Or.inl h
        · exact Or.inr ((hm i).mpr h)

def dotAnswer : Answer := ⟨0, some ".", some "", some "2020"⟩

/-- C2 counterexample: the claim as stated is universally quantified over
input strings, but the engine returns early on an input that trims to
empty.  With the record `"."` (whose normalized full name is `""`) and
the input `" "` (whose normalization is also `""`), the claim's rules
select the record, yet `checkAnswer` leaves MatchState unchanged. -/
theorem checkAnswer_claim_counterexample :
    checkAnswer [dotAnswer] ∅ " " = ∅ ∧
    claimRule [dotAnswer] 0 (normL " ".data) ∧
    (0 : ℕ) < [dotAnswer].length ∧ (0 : ℕ) ∉ (∅ : Finset ℕ) :=
  ⟨by decide, Or.inl (by decide), by decide, by decide⟩

/-- Witness for the C2 amended theorem at concrete inputs: "curry" is
added by the last-name rule, and a whitespace-only input is a no-op. -/
theorem checkAnswer_spec_witness :
    0 ∈ checkAnswer [curryAnswer] ∅ "curry" ∧
    checkAnswer [curryAnswer] ∅ " " = ∅ :=
  ⟨((checkAnswer_spec [curryAnswer] ∅ "curry").2 (by decide) (by decide) 0).mpr
      (Or.inr ⟨by decide, by decide,
        Or.inr (Or.inl ⟨"Curry".data, by decide, by decide⟩)⟩),
    (checkAnswer_spec [curryAnswer] ∅ " ").1 (by decide)⟩
